import Mathlib

/-!
Verification development for the Shape-Detector project (TypeScript sources
`src/main.ts`, `src/evaluation-utils.ts`, `src/evaluation.ts`).

Modelling conventions:
- JavaScript double-precision arithmetic is modelled by exact rational
  arithmetic over ℚ.  Decimal literals in the source denote the rationals they
  write, and `Math.PI` denotes the exact value of the IEEE-754 double closest
  to π, namely 884279719003555 / 2^48.
- `Math.sqrt` (used only inside `calculateDistance`) has no rational
  counterpart, so the Euclidean distance is a parameter `dist` of the
  evaluation model; every theorem quantifies over it.
- The `imageName` argument of `evaluateDetection` is unused in the source and
  is kept for fidelity.
-/

namespace ShapeDet

/-- Axis-aligned bounding box, as the `{x, y, width, height}` records of
`main.ts` and `evaluation-utils.ts`. -/
structure Box where
  x : ℚ
  y : ℚ
  width : ℚ
  height : ℚ
deriving DecidableEq, Repr, Inhabited

/-- Shape labels produced by the classifier in `main.ts` (`DetectedShape.type`). -/
inductive ShapeType where
  | circle
  | triangle
  | rectangle
  | pentagon
  | star
deriving DecidableEq, Repr, Inhabited

/-- String value of a shape label, as the union-typed string in the source. -/
def shapeTypeName : ShapeType → String
  | .circle => "circle"
  | .triangle => "triangle"
  | .rectangle => "rectangle"
  | .pentagon => "pentagon"
  | .star => "star"

/-- A detected shape (`DetectedShape` in `main.ts`). -/
structure DetectedShape where
  type : ShapeType
  confidence : ℚ
  boundingBox : Box
  center : ℚ × ℚ
  area : ℚ
deriving DecidableEq, Repr, Inhabited

/-- A ground-truth annotation (`GroundTruthShape` in `evaluation-utils.ts`).
The source declares `bounding_box` optional but dereferences it
unconditionally inside `calculateIoU`, so the modelled domain requires it;
`center`, `area` and `confidence_expected` are used behind truthiness checks
and stay optional. -/
structure GroundTruthShape where
  type : String
  center : Option (ℚ × ℚ)
  bounding_box : Box
  area : Option ℚ
  confidence_expected : Option ℚ
deriving DecidableEq, Repr, Inhabited

/-- Intersection-over-union of two boxes, translated from `calculateIoU` in
`evaluation-utils.ts`. -/
def calculateIoU (box1 box2 : Box) : ℚ :=
  let x1 := max box1.x box2.x
  let y1 := max box1.y box2.y
  let x2 := min (box1.x + box1.width) (box2.x + box2.width)
  let y2 := min (box1.y + box1.height) (box2.y + box2.height)
  if x2 ≤ x1 ∨ y2 ≤ y1 then 0
  else
    let intersection := (x2 - x1) * (y2 - y1)
    let union := box1.width * box1.height + box2.width * box2.height - intersection
    intersection / union

/-- Safety contract of `calculateIoU` for boxes with nonnegative extents:
the result lies in [0,1], non-overlap (including degenerate boxes) yields 0,
and in the division branch both the intersection and the union are strictly
positive. -/
def IoUSound (b1 b2 : Box) : Prop :=
  (0 ≤ calculateIoU b1 b2 ∧ calculateIoU b1 b2 ≤ 1)
  ∧ ((min (b1.x + b1.width) (b2.x + b2.width) ≤ max b1.x b2.x ∨
      min (b1.y + b1.height) (b2.y + b2.height) ≤ max b1.y b2.y) →
      calculateIoU b1 b2 = 0)
  ∧ ((b1.width = 0 ∨ b1.height = 0 ∨ b2.width = 0 ∨ b2.height = 0) →
      calculateIoU b1 b2 = 0)
  ∧ (¬ (min (b1.x + b1.width) (b2.x + b2.width) ≤ max b1.x b2.x ∨
        min (b1.y + b1.height) (b2.y + b2.height) ≤ max b1.y b2.y) →
      0 < (min (b1.x + b1.width) (b2.x + b2.width) - max b1.x b2.x) *
          (min (b1.y + b1.height) (b2.y + b2.height) - max b1.y b2.y)
      ∧ 0 < b1.width * b1.height + b2.width * b2.height -
            (min (b1.x + b1.width) (b2.x + b2.width) - max b1.x b2.x) *
            (min (b1.y + b1.height) (b2.y + b2.height) - max b1.y b2.y))

/-- C10: for boxes with nonnegative widths and heights, `calculateIoU` is total
with value in [0,1]; it returns 0 whenever the boxes do not overlap (in
particular when either box has zero area), and the division is reached only
with strictly positive intersection and union, so no division by zero
occurs. -/
theorem claim_C10 (b1 b2 : Box) (hw1 : 0 ≤ b1.width) (hh1 : 0 ≤ b1.height)
    (hw2 : 0 ≤ b2.width) (hh2 : 0 ≤ b2.height) : IoUSound b1 b2 := by
  have hx2a : min (b1.x + b1.width) (b2.x + b2.width) ≤ b1.x + b1.width := min_le_left _ _
  have hx2b : min (b1.x + b1.width) (b2.x + b2.width) ≤ b2.x + b2.width := min_le_right _ _
  have hx1a : b1.x ≤ max b1.x b2.x := le_max_left _ _
  have hx1b : b2.x ≤ max b1.x b2.x := le_max_right _ _
  have hy2a : min (b1.y + b1.height) (b2.y + b2.height) ≤ b1.y + b1.height := min_le_left _ _
  have hy2b : min (b1.y + b1.height) (b2.y + b2.height) ≤ b2.y + b2.height := min_le_right _ _
  have hy1a : b1.y ≤ max b1.y b2.y := le_max_left _ _
  have hy1b : b2.y ≤ max b1.y b2.y := le_max_right _ _
  by_cases hov : (min (b1.x + b1.width) (b2.x + b2.width) ≤ max b1.x b2.x ∨
      min (b1.y + b1.height) (b2.y + b2.height) ≤ max b1.y b2.y)
  · have hzero : calculateIoU b1 b2 = 0 := by
      unfold calculateIoU
      simp only [hov, if_true]
    refine ⟨⟨by simp [hzero], by simp [hzero]⟩, fun _ => hzero, fun _ => hzero, fun hn => absurd hov hn⟩
  · push_neg at hov
    obtain ⟨hx, hy⟩ := hov
    -- abbreviations for the intersection extents
    have hdx : 0 < min (b1.x + b1.width) (b2.x + b2.width) - max b1.x b2.x := by linarith
    have hdy : 0 < min (b1.y + b1.height) (b2.y + b2.height) - max b1.y b2.y := by linarith
    have hI : 0 < (min (b1.x + b1.width) (b2.x + b2.width) - max b1.x b2.x) *
        (min (b1.y + b1.height) (b2.y + b2.height) - max b1.y b2.y) := mul_pos hdx hdy
    have hIle1 : (min (b1.x + b1.width) (b2.x + b2.width) - max b1.x b2.x) *
        (min (b1.y + b1.height) (b2.y + b2.height) - max b1.y b2.y) ≤ b1.width * b1.height := by
      have h1 : min (b1.x + b1.width) (b2.x + b2.width) - max b1.x b2.x ≤ b1.width := by linarith
      have h2 : min (b1.y + b1.height) (b2.y + b2.height) - max b1.y b2.y ≤ b1.height := by linarith
      exact mul_le_mul h1 h2 (le_of_lt hdy) (by linarith)
    have hIle2 : (min (b1.x + b1.width) (b2.x + b2.width) - max b1.x b2.x) *
        (min (b1.y + b1.height) (b2.y + b2.height) - max b1.y b2.y) ≤ b2.width * b2.height := by
      have h1 : min (b1.x + b1.width) (b2.x + b2.width) - max b1.x b2.x ≤ b2.width := by linarith
      have h2 : min (b1.y + b1.height) (b2.y + b2.height) - max b1.y b2.y ≤ b2.height := by linarith
      exact mul_le_mul h1 h2 (le_of_lt hdy) (by linarith)
    have hU : 0 < b1.width * b1.height + b2.width * b2.height -
        (min (b1.x + b1.width) (b2.x + b2.width) - max b1.x b2.x) *
        (min (b1.y + b1.height) (b2.y + b2.height) - max b1.y b2.y) := by linarith
    have hval : calculateIoU b1 b2 =
        (min (b1.x + b1.width) (b2.x + b2.width) - max b1.x b2.x) *
        (min (b1.y + b1.height) (b2.y + b2.height) - max b1.y b2.y) /
        (b1.width * b1.height + b2.width * b2.height -
          (min (b1.x + b1.width) (b2.x + b2.width) - max b1.x b2.x) *
          (min (b1.y + b1.height) (b2.y + b2.height) - max b1.y b2.y)) := by
      unfold calculateIoU
      have hcond : ¬ (min (b1.x + b1.width) (b2.x + b2.width) ≤ max b1.x b2.x ∨
          min (b1.y + b1.height) (b2.y + b2.height) ≤ max b1.y b2.y) := by
        push_neg
        exact ⟨hx, hy⟩
      simp only [hcond, if_false]
    constructor
    · constructor
      · rw [hval]
        exact div_nonneg (le_of_lt hI) (le_of_lt hU)
      · rw [hval]
        rw [div_le_one hU]
        linarith
    refine ⟨fun h => ?_, fun h => ?_, fun _ => ⟨hI, hU⟩⟩
    · rcases h with h | h
      · exact absurd h (not_le.mpr hx)
      · exact absurd h (not_le.mpr hy)
    · exfalso
      rcases h with h | h | h | h <;> nlinarith

/-- Witness for C10 at two concrete overlapping boxes. -/
theorem claim_C10_witness :
    ((0:ℚ) ≤ 4 ∧ (0:ℚ) ≤ 3 ∧ (0:ℚ) ≤ 4 ∧ (0:ℚ) ≤ 3) ∧
    IoUSound ⟨0, 0, 4, 3⟩ ⟨2, 1, 4, 3⟩ :=
  ⟨by norm_num,
   claim_C10 ⟨0, 0, 4, 3⟩ ⟨2, 1, 4, 3⟩ (by norm_num) (by norm_num) (by norm_num) (by norm_num)⟩

/-- Per-image metrics record (`EvaluationMetrics` in `evaluation-utils.ts`).
The source field `recall` is rendered `recall_` because `recall` is a command
name in this Lean environment. -/
structure EvaluationMetrics where
  precision : ℚ
  recall_ : ℚ
  f1_score : ℚ
  average_iou : ℚ
  center_point_accuracy : ℚ
  area_accuracy : ℚ
  confidence_calibration : ℚ
  processing_time : ℚ
deriving DecidableEq, Repr

/-- Accumulator threaded through the detection loop of `evaluateDetection`
(`matched`, `truePositives`, `totalIoU`, `totalCenterDistance`,
`totalAreaError`, `confidenceErrors`). -/
structure MatchState where
  matched : Finset ℕ
  truePositives : ℕ
  totalIoU : ℚ
  totalCenterDistance : ℚ
  totalAreaError : ℚ
  confidenceErrors : ℚ

/-- One iteration of the inner ground-truth scan of `evaluateDetection`, on
the running state `(bestIndex, bestIoU)`: the entry `i` is skipped when
already matched or of a different type, and it replaces the running best when
its IoU strictly exceeds both the running best and the threshold. -/
def bcStep (iouThreshold : ℚ) (groundTruth : List GroundTruthShape)
    (matched : Finset ℕ) (d : DetectedShape) (best : Option ℕ × ℚ) (i : ℕ) : Option ℕ × ℚ :=
  if i ∈ matched then best
  else
    let g := groundTruth.getD i default
    if shapeTypeName d.type ≠ g.type then best
    else
      let iou := calculateIoU d.boundingBox g.bounding_box
      if iou > best.2 ∧ iou > iouThreshold then (some i, iou) else best

/-- Inner loop of `evaluateDetection`: scan the first `n` ground-truth indices
(in the code `n` is the length of the ground-truth list) with running state
initially `(null, 0)`. -/
def bestCandidate (iouThreshold : ℚ) (groundTruth : List GroundTruthShape)
    (matched : Finset ℕ) (d : DetectedShape) (n : ℕ) : Option ℕ × ℚ :=
  List.foldl (bcStep iouThreshold groundTruth matched d) (none, 0) (List.range n)

/-- One iteration of the outer detection loop of `evaluateDetection`,
accumulating the matched set and the metric totals.  The source guards the
center / area / confidence accumulations by JavaScript truthiness, which for
the optional ground-truth fields means presence and (for numbers) a nonzero
value; `detectedShape.center` is always a (truthy) object.  `dist` stands for
`calculateDistance`, whose `Math.sqrt` is kept abstract. -/
def matchStep (dist : ℚ × ℚ → ℚ × ℚ → ℚ) (iouThreshold : ℚ)
    (groundTruth : List GroundTruthShape) (st : MatchState) (d : DetectedShape) : MatchState :=
  match bestCandidate iouThreshold groundTruth st.matched d groundTruth.length with
  | (none, _) => st
  | (some i, iou) =>
    let g := groundTruth.getD i default
    { matched := insert i st.matched
      truePositives := st.truePositives + 1
      totalIoU := st.totalIoU + iou
      totalCenterDistance := st.totalCenterDistance +
        (match g.center with
         | some c => dist d.center c
         | none => 0)
      totalAreaError := st.totalAreaError +
        (match g.area with
         | some a => if a ≠ 0 ∧ d.area ≠ 0 then |d.area - a| / a else 0
         | none => 0)
      confidenceErrors := st.confidenceErrors +
        (match g.confidence_expected with
         | some ce => if ce ≠ 0 ∧ d.confidence ≠ 0 then |d.confidence - ce| else 0
         | none => 0) }

/-- The whole matching loop of `evaluateDetection`, folded over the detected
shapes in order. -/
def matchFold (dist : ℚ × ℚ → ℚ × ℚ → ℚ) (iouThreshold : ℚ)
    (detected : List DetectedShape) (groundTruth : List GroundTruthShape) : MatchState :=
  detected.foldl (matchStep dist iouThreshold groundTruth) ⟨∅, 0, 0, 0, 0, 0⟩

/-- Number of true positives produced by the greedy matching at a given IoU
threshold (the code fixes the threshold to 0.5; it is generalized here as C6
requires). -/
def truePositivesWith (dist : ℚ × ℚ → ℚ × ℚ → ℚ) (iouThreshold : ℚ)
    (detected : List DetectedShape) (groundTruth : List GroundTruthShape) : ℕ :=
  (matchFold dist iouThreshold detected groundTruth).truePositives

/-- Metrics computation of `evaluateDetection`, with the IoU threshold as a
parameter. -/
def evaluateDetectionWith (dist : ℚ × ℚ → ℚ × ℚ → ℚ) (iouThreshold : ℚ)
    (detected : List DetectedShape) (groundTruth : List GroundTruthShape) : EvaluationMetrics :=
  let st := matchFold dist iouThreshold detected groundTruth
  let tp : ℚ := st.truePositives
  let precision := if detected.length > 0 then tp / detected.length else 0
  let recallVal := if groundTruth.length > 0 then tp / groundTruth.length else 1
  let f1Score := if precision + recallVal > 0 then 2 * (precision * recallVal) / (precision + recallVal) else 0
  { precision := precision
    recall_ := recallVal
    f1_score := f1Score
    average_iou := if st.truePositives > 0 then st.totalIoU / tp else 0
    center_point_accuracy := if st.truePositives > 0 then st.totalCenterDistance / tp else 0
    area_accuracy := if st.truePositives > 0 then 1 - st.totalAreaError / tp else 0
    confidence_calibration := if st.truePositives > 0 then 1 - st.confidenceErrors / tp else 0
    processing_time := 0 }

/-- Translation of `evaluateDetection` from `evaluation-utils.ts`
(`iouThreshold = 0.5`; the `imageName` parameter is unused in the source). -/
def evaluateDetection (dist : ℚ × ℚ → ℚ × ℚ → ℚ) (detected : List DetectedShape)
    (groundTruth : List GroundTruthShape) (imageName : String) : EvaluationMetrics :=
  evaluateDetectionWith dist (1/2) detected groundTruth

/-- Ground-truth list of the C4 scenario: one circle with bounding box
x=0, y=0, w=10, h=10. -/
def gtCircleTen : GroundTruthShape :=
  { type := "circle", center := none, bounding_box := ⟨0, 0, 10, 10⟩
    area := none, confidence_expected := none }

/-- C4: `evaluateDetection` returns precision = TP/|detected| (0 for an empty
detected list), recall = TP/|groundTruth| (1 for an empty ground-truth list),
f1 = 2pr/(p+r) (0 when p+r = 0); in particular, for one ground-truth circle
and no detections it returns precision 0, recall 0 and F1 0. -/
theorem claim_C4 (dist : ℚ × ℚ → ℚ × ℚ → ℚ) (detected : List DetectedShape)
    (groundTruth : List GroundTruthShape) (imageName : String) :
    ((evaluateDetection dist detected groundTruth imageName).precision =
      if detected.length > 0 then
        (truePositivesWith dist (1/2) detected groundTruth : ℚ) / detected.length
      else 0)
    ∧ ((evaluateDetection dist detected groundTruth imageName).recall_ =
      if groundTruth.length > 0 then
        (truePositivesWith dist (1/2) detected groundTruth : ℚ) / groundTruth.length
      else 1)
    ∧ ((evaluateDetection dist detected groundTruth imageName).f1_score =
      if (evaluateDetection dist detected groundTruth imageName).precision +
         (evaluateDetection dist detected groundTruth imageName).recall_ > 0 then
        2 * ((evaluateDetection dist detected groundTruth imageName).precision *
             (evaluateDetection dist detected groundTruth imageName).recall_) /
        ((evaluateDetection dist detected groundTruth imageName).precision +
         (evaluateDetection dist detected groundTruth imageName).recall_)
      else 0)
    ∧ ((evaluateDetection dist [] [gtCircleTen] imageName).precision = 0
       ∧ (evaluateDetection dist [] [gtCircleTen] imageName).recall_ = 0
       ∧ (evaluateDetection dist [] [gtCircleTen] imageName).f1_score = 0) := by
  refine ⟨rfl, rfl, rfl, ?_, ?_, ?_⟩ <;>
    simp [evaluateDetection, evaluateDetectionWith, matchFold, truePositivesWith]

/-- Result record of one image (`DetectionResult` in `main.ts`); wall-clock
timing is not modelled, so `detectShapes` below reports 0 and the scoring
theorems quantify over the stored time. -/
structure DetectionResult where
  shapes : List DetectedShape
  processingTime : ℚ
  imageWidth : ℕ
  imageHeight : ℕ
deriving DecidableEq, Repr

/-- Outcome of `calculateScore` in `evaluation.ts` (the feedback strings are
presentation-only and omitted). -/
structure ScoreResult where
  passed : Bool
  score : ℚ
deriving DecidableEq, Repr

/-- Translation of `calculateScore` (`evaluation.ts`): five banded
contributions summed to a 0-100 score; `passed` iff the score reaches 60. -/
def calculateScore (evaluation : EvaluationMetrics) (detection : DetectionResult) : ScoreResult :=
  let s1 : ℚ := if evaluation.f1_score ≥ 9/10 then 40
    else if evaluation.f1_score ≥ 7/10 then 30
    else if evaluation.f1_score ≥ 1/2 then 20 else 0
  let s2 : ℚ := if evaluation.average_iou ≥ 4/5 then 25
    else if evaluation.average_iou ≥ 3/5 then 20
    else if evaluation.average_iou ≥ 2/5 then 10 else 0
  let s3 : ℚ := if evaluation.center_point_accuracy ≤ 5 then 15
    else if evaluation.center_point_accuracy ≤ 10 then 12
    else if evaluation.center_point_accuracy ≤ 20 then 8 else 0
  let s4 : ℚ := if evaluation.area_accuracy ≥ 9/10 then 10
    else if evaluation.area_accuracy ≥ 4/5 then 8
    else if evaluation.area_accuracy ≥ 7/10 then 5 else 0
  let s5 : ℚ := if detection.processingTime ≤ 500 then 10
    else if detection.processingTime ≤ 1000 then 8
    else if detection.processingTime ≤ 2000 then 5 else 0
  let score := s1 + s2 + s3 + s4 + s5
  ⟨decide (score ≥ 60), score⟩

/-- Translation of `calculateGrade` (`evaluation.ts`). -/
def calculateGrade (percentage : ℚ) : String :=
  if percentage ≥ 90 then "A"
  else if percentage ≥ 80 then "B"
  else if percentage ≥ 70 then "C"
  else if percentage ≥ 60 then "D"
  else "F"

/-- JavaScript `Math.round`: round half toward positive infinity. -/
def jsRound (q : ℚ) : ℤ := ⌊q + 1/2⌋

/-- Batch-level fields of `OverallResults` (`evaluation.ts`). -/
structure OverallAgg where
  totalScore : ℤ
  maxScore : ℚ
  percentage : ℚ
  grade : String
deriving DecidableEq, Repr

/-- Pure aggregation core of `runSelectedEvaluation` (`evaluation.ts` lines
129-146): from the per-image scores, `maxScore = 100 * numTests`,
`percentage = (totalScore / maxScore) * 100`; the stored `totalScore` and
`percentage` are rounded with `Math.round` (percentage to two decimals), and
the grade is computed from the unrounded percentage. -/
def aggregateScores (scores : List ℚ) : OverallAgg :=
  let numTests : ℚ := scores.length
  let maxScore : ℚ := numTests * 100
  let totalScore : ℚ := scores.sum
  let percentage : ℚ := (totalScore / maxScore) * 100
  { totalScore := jsRound totalScore
    maxScore := maxScore
    percentage := (jsRound (percentage * 100) : ℚ) / 100
    grade := calculateGrade percentage }

/-- C7 conclusion (amended): an image passes iff its score is at least 60; the
batch percentage is 100 times the claimed ratio S/(100N) (i.e. S/N), stored
rounded to two decimals; and the grade comes from the unrounded percentage by
the bands 90/80/70/60. -/
def BatchScoringSpec (scores : List ℚ) (ev : EvaluationMetrics) (det : DetectionResult) : Prop :=
  ((calculateScore ev det).passed = true ↔ 60 ≤ (calculateScore ev det).score)
  ∧ (aggregateScores scores).grade =
      calculateGrade (100 * (scores.sum / (100 * scores.length)))
  ∧ (aggregateScores scores).percentage =
      (jsRound (100 * (scores.sum / (100 * scores.length)) * 100) : ℚ) / 100
  ∧ (∀ p : ℚ, calculateGrade p =
      if p ≥ 90 then "A" else if p ≥ 80 then "B"
      else if p ≥ 70 then "C" else if p ≥ 60 then "D" else "F")

/-- C7 counterexample: for a single image scoring 80, the stored batch
percentage is 80, not S/(100N) = 80/100. -/
theorem claim_C7_counterexample :
    (aggregateScores [80]).percentage = 80 ∧
    (80 : ℚ) / (100 * 1) = 4/5 ∧
    (aggregateScores [80]).percentage ≠ (80 : ℚ) / (100 * 1) := by
  refine ⟨?_, by norm_num, ?_⟩ <;>
    norm_num [aggregateScores, jsRound, calculateGrade]

/-- C7 (amended): passing is score ≥ 60, the grade bands are 90/80/70/60/F on
the percentage, and the percentage is 100·S/(100N) = S/N (the claim's
S/(100N) is off by the factor 100 with which the code scales it), rounded to
two decimals in the stored field while the grade uses the unrounded value. -/
theorem claim_C7 (scores : List ℚ) (h : 0 < scores.length)
    (ev : EvaluationMetrics) (det : DetectionResult) :
    BatchScoringSpec scores ev det := by
  have hratio : (scores.sum / ((scores.length : ℚ) * 100)) * 100 =
      100 * (scores.sum / (100 * scores.length)) := by
    rw [mul_comm (100 : ℚ) ((scores.length : ℚ))]
    exact mul_comm _ _
  refine ⟨?_, ?_, ?_, fun p => rfl⟩
  · simp only [calculateScore, decide_eq_true_iff, ge_iff_le]
  · show calculateGrade ((scores.sum / ((scores.length : ℚ) * 100)) * 100) = _
    rw [hratio]
  · show (jsRound ((scores.sum / ((scores.length : ℚ) * 100)) * 100 * 100) : ℚ) / 100 = _
    rw [hratio]

/-- Witness for C7 at the one-image batch [80]. -/
theorem claim_C7_witness :
    0 < [(80 : ℚ)].length ∧
    BatchScoringSpec [80]
      ⟨1, 1, 1, 1, 0, 1, 1, 0⟩ ⟨[], 0, 0, 0⟩ :=
  ⟨by decide, claim_C7 [80] (by decide) ⟨1, 1, 1, 1, 0, 1, 1, 0⟩ ⟨[], 0, 0, 0⟩⟩

/-- C9: with no matched detection (TP = 0) the derived per-match metrics are
all 0, and since center accuracy 0 falls in the best band, `calculateScore`
still awards 15 center points plus the processing-time points (up to 10), for
a total of 15 plus the time band. -/
theorem claim_C9 (dist : ℚ × ℚ → ℚ × ℚ → ℚ) (detected : List DetectedShape)
    (groundTruth : List GroundTruthShape) (imageName : String) (det : DetectionResult)
    (h : truePositivesWith dist (1/2) detected groundTruth = 0) :
    ((evaluateDetection dist detected groundTruth imageName).average_iou = 0
     ∧ (evaluateDetection dist detected groundTruth imageName).center_point_accuracy = 0
     ∧ (evaluateDetection dist detected groundTruth imageName).area_accuracy = 0
     ∧ (evaluateDetection dist detected groundTruth imageName).confidence_calibration = 0)
    ∧ (calculateScore (evaluateDetection dist detected groundTruth imageName) det).score =
        15 + (if det.processingTime ≤ 500 then 10
          else if det.processingTime ≤ 1000 then 8
          else if det.processingTime ≤ 2000 then 5 else 0)
    ∧ (det.processingTime ≤ 500 →
        (calculateScore (evaluateDetection dist detected groundTruth imageName) det).score = 25) := by
  have htp : (matchFold dist (1/2) detected groundTruth).truePositives = 0 := h
  have hf1 : (evaluateDetection dist detected groundTruth imageName).f1_score = 0 := by
    simp only [evaluateDetection, evaluateDetectionWith, htp]
    by_cases hg : groundTruth.length > 0 <;> by_cases hd : detected.length > 0 <;>
      simp [hg, hd]
  have hmet : (evaluateDetection dist detected groundTruth imageName).average_iou = 0
      ∧ (evaluateDetection dist detected groundTruth imageName).center_point_accuracy = 0
      ∧ (evaluateDetection dist detected groundTruth imageName).area_accuracy = 0
      ∧ (evaluateDetection dist detected groundTruth imageName).confidence_calibration = 0 := by
    simp only [evaluateDetection, evaluateDetectionWith, htp]
    norm_num
  refine ⟨hmet, ?_, ?_⟩
  · simp only [calculateScore, hf1, hmet.1, hmet.2.1, hmet.2.2.1]
    norm_num
  · intro ht
    simp only [calculateScore, hf1, hmet.1, hmet.2.1, hmet.2.2.1]
    rw [if_pos ht]
    norm_num

/-- Witness for C9 at the empty detection/ground-truth pair. -/
theorem claim_C9_witness :
    truePositivesWith (fun _ _ => 0) (1/2) [] [] = 0 ∧
    (((evaluateDetection (fun _ _ => 0) [] [] "img").average_iou = 0
      ∧ (evaluateDetection (fun _ _ => 0) [] [] "img").center_point_accuracy = 0
      ∧ (evaluateDetection (fun _ _ => 0) [] [] "img").area_accuracy = 0
      ∧ (evaluateDetection (fun _ _ => 0) [] [] "img").confidence_calibration = 0)
    ∧ (calculateScore (evaluateDetection (fun _ _ => 0) [] [] "img") ⟨[], 0, 0, 0⟩).score =
        15 + (if (0:ℚ) ≤ 500 then 10
          else if (0:ℚ) ≤ 1000 then 8
          else if (0:ℚ) ≤ 2000 then 5 else 0)
    ∧ ((0:ℚ) ≤ 500 →
        (calculateScore (evaluateDetection (fun _ _ => 0) [] [] "img") ⟨[], 0, 0, 0⟩).score = 25)) :=
  ⟨rfl, claim_C9 (fun _ _ => 0) [] [] "img" ⟨[], 0, 0, 0⟩ rfl⟩

/-- IoU of a detected shape against the i-th ground-truth entry, as computed
inside the loops of `evaluateDetection`. -/
def iouAt (d : DetectedShape) (groundTruth : List GroundTruthShape) (i : ℕ) : ℚ :=
  calculateIoU d.boundingBox (groundTruth.getD i default).bounding_box

/-- Eligibility of ground-truth index `i` for detection `d` in the inner scan:
within the scanned range, not yet matched, of the detection's type. -/
def Elig (groundTruth : List GroundTruthShape) (matched : Finset ℕ)
    (d : DetectedShape) (n i : ℕ) : Prop :=
  i < n ∧ i ∉ matched ∧ shapeTypeName d.type = (groundTruth.getD i default).type

lemma bestCandidate_succ (t : ℚ) (gts : List GroundTruthShape) (matched : Finset ℕ)
    (d : DetectedShape) (n : ℕ) :
    bestCandidate t gts matched d (n + 1) =
      bcStep t gts matched d (bestCandidate t gts matched d n) n := by
  unfold bestCandidate
  rw [List.range_succ, List.foldl_append, List.foldl_cons, List.foldl_nil]

/-- Characterization of the inner scan: it returns `(null, 0)` when no
eligible index clears both the initial best 0 and the threshold, and
otherwise the earliest eligible index of maximal IoU, whose IoU exceeds the
threshold and 0. -/
lemma bestCandidate_spec (t : ℚ) (gts : List GroundTruthShape) (matched : Finset ℕ)
    (d : DetectedShape) (n : ℕ) :
    (bestCandidate t gts matched d n = (none, 0) ∧
      ∀ i, Elig gts matched d n i → ¬ (t < iouAt d gts i ∧ 0 < iouAt d gts i))
    ∨ (∃ i, bestCandidate t gts matched d n = (some i, iouAt d gts i) ∧
        Elig gts matched d n i ∧ t < iouAt d gts i ∧ 0 < iouAt d gts i ∧
        (∀ j, Elig gts matched d n j → iouAt d gts j ≤ iouAt d gts i) ∧
        (∀ j, Elig gts matched d n j → iouAt d gts j = iouAt d gts i → i ≤ j)) := by
  induction n with
  | zero =>
    left
    exact ⟨rfl, fun i hi => absurd hi.1 (Nat.not_lt_zero i)⟩
  | succ n ih =>
    have hsucc := bestCandidate_succ t gts matched d n
    by_cases hmem : n ∈ matched
    · -- index n is skipped: the state is unchanged and n is never eligible
      have hstep : bestCandidate t gts matched d (n + 1) = bestCandidate t gts matched d n := by
        rw [hsucc]; unfold bcStep; rw [if_pos hmem]
      rcases ih with ⟨heq, hall⟩ | ⟨i, heq, hel, ht, h0, hmax, hmin⟩
      · left
        refine ⟨hstep.trans heq, fun i hi => ?_⟩
        rcases Nat.lt_succ_iff_lt_or_eq.mp hi.1 with hlt | hrfl
        · exact hall i ⟨hlt, hi.2.1, hi.2.2⟩
        · exact absurd (hrfl ▸ hi.2.1) (not_not_intro hmem)
      · right
        refine ⟨i, hstep.trans heq, ⟨Nat.lt_succ_of_lt hel.1, hel.2.1, hel.2.2⟩, ht, h0, ?_, ?_⟩
        · intro j hj
          rcases Nat.lt_succ_iff_lt_or_eq.mp hj.1 with hlt | hrfl
          · exact hmax j ⟨hlt, hj.2.1, hj.2.2⟩
          · exact absurd (hrfl ▸ hj.2.1) (not_not_intro hmem)
        · intro j hj hje
          rcases Nat.lt_succ_iff_lt_or_eq.mp hj.1 with hlt | hrfl
          · exact hmin j ⟨hlt, hj.2.1, hj.2.2⟩ hje
          · exact absurd (hrfl ▸ hj.2.1) (not_not_intro hmem)
    · by_cases hty : shapeTypeName d.type ≠ (gts.getD n default).type
      · -- type mismatch: the state is unchanged and n is never eligible
        have hstep : bestCandidate t gts matched d (n + 1) = bestCandidate t gts matched d n := by
          rw [hsucc]; unfold bcStep; rw [if_neg hmem, if_pos hty]
        rcases ih with ⟨heq, hall⟩ | ⟨i, heq, hel, ht, h0, hmax, hmin⟩
        · left
          refine ⟨hstep.trans heq, fun i hi => ?_⟩
          rcases Nat.lt_succ_iff_lt_or_eq.mp hi.1 with hlt | hrfl
          · exact hall i ⟨hlt, hi.2.1, hi.2.2⟩
          · exact absurd (hrfl ▸ hi.2.2) hty
        · right
          refine ⟨i, hstep.trans heq, ⟨Nat.lt_succ_of_lt hel.1, hel.2.1, hel.2.2⟩, ht, h0, ?_, ?_⟩
          · intro j hj
            rcases Nat.lt_succ_iff_lt_or_eq.mp hj.1 with hlt | hrfl
            · exact hmax j ⟨hlt, hj.2.1, hj.2.2⟩
            · exact absurd (hrfl ▸ hj.2.2) hty
          · intro j hj hje
            rcases Nat.lt_succ_iff_lt_or_eq.mp hj.1 with hlt | hrfl
            · exact hmin j ⟨hlt, hj.2.1, hj.2.2⟩ hje
            · exact absurd (hrfl ▸ hj.2.2) hty
      · push_neg at hty
        have heln : Elig gts matched d (n + 1) n := ⟨Nat.lt_succ_self n, hmem, hty⟩
        have hstep : bestCandidate t gts matched d (n + 1) =
            (if iouAt d gts n > (bestCandidate t gts matched d n).2 ∧ iouAt d gts n > t
              then (some n, iouAt d gts n) else bestCandidate t gts matched d n) := by
          rw [hsucc]; unfold bcStep
          rw [if_neg hmem, if_neg (not_not_intro hty)]
          rfl
        rcases ih with ⟨heq, hall⟩ | ⟨i, heq, hel, ht, h0, hmax, hmin⟩
        · by_cases hc : iouAt d gts n > 0 ∧ iouAt d gts n > t
          · right
            refine ⟨n, ?_, heln, hc.2, hc.1, ?_, ?_⟩
            · rw [hstep, heq]
              simp only [if_pos (show iouAt d gts n > ((none : Option ℕ), (0:ℚ)).2 ∧
                iouAt d gts n > t from ⟨hc.1, hc.2⟩)]
            · intro j hj
              rcases Nat.lt_succ_iff_lt_or_eq.mp hj.1 with hlt | hrfl
              · have := hall j ⟨hlt, hj.2.1, hj.2.2⟩
                push_neg at this
                by_cases hjt : t < iouAt d gts j
                · exact le_of_lt (lt_of_le_of_lt (this hjt) hc.1)
                · exact le_of_lt (lt_of_le_of_lt (not_lt.mp hjt) hc.2)
              · subst hrfl; exact le_refl _
            · intro j hj hje
              rcases Nat.lt_succ_iff_lt_or_eq.mp hj.1 with hlt | hrfl
              · exfalso
                have := hall j ⟨hlt, hj.2.1, hj.2.2⟩
                rw [hje] at this
                exact this ⟨hc.2, hc.1⟩
              · subst hrfl; exact le_refl _
          · left
            have hnc : ¬ (iouAt d gts n > (bestCandidate t gts matched d n).2 ∧ iouAt d gts n > t) := by
              rw [heq]
              intro hcc
              exact hc ⟨hcc.1, hcc.2⟩
            refine ⟨(hstep.trans (if_neg hnc)).trans heq, fun i hi => ?_⟩
            rcases Nat.lt_succ_iff_lt_or_eq.mp hi.1 with hlt | hrfl
            · exact hall i ⟨hlt, hi.2.1, hi.2.2⟩
            · subst hrfl
              intro hcc
              exact hc ⟨hcc.2, hcc.1⟩
        · by_cases hc : iouAt d gts n > iouAt d gts i ∧ iouAt d gts n > t
          · right
            have hn0 : 0 < iouAt d gts n := lt_trans h0 hc.1
            refine ⟨n, ?_, heln, hc.2, hn0, ?_, ?_⟩
            · rw [hstep, heq]
              simp only [if_pos (show iouAt d gts n > ((some i : Option ℕ), iouAt d gts i).2 ∧
                iouAt d gts n > t from hc)]
            · intro j hj
              rcases Nat.lt_succ_iff_lt_or_eq.mp hj.1 with hlt | hrfl
              · exact le_of_lt (lt_of_le_of_lt (hmax j ⟨hlt, hj.2.1, hj.2.2⟩) hc.1)
              · subst hrfl; exact le_refl _
            · intro j hj hje
              rcases Nat.lt_succ_iff_lt_or_eq.mp hj.1 with hlt | hrfl
              · exfalso
                have hle := hmax j ⟨hlt, hj.2.1, hj.2.2⟩
                rw [hje] at hle
                exact absurd hc.1 (not_lt.mpr hle)
              · subst hrfl; exact le_refl _
          · right
            have hnc : ¬ (iouAt d gts n > (bestCandidate t gts matched d n).2 ∧ iouAt d gts n > t) := by
              rw [heq]
              intro hcc
              exact hc ⟨hcc.1, hcc.2⟩
            have hnle : iouAt d gts n ≤ iouAt d gts i := by
              by_cases hgt : iouAt d gts n > iouAt d gts i
              · have hnt : ¬ iouAt d gts n > t := fun htt => hc ⟨hgt, htt⟩
                exact le_of_lt (lt_of_le_of_lt (not_lt.mp hnt) ht)
              · exact not_lt.mp hgt
            refine ⟨i, (hstep.trans (if_neg hnc)).trans heq,
              ⟨Nat.lt_succ_of_lt hel.1, hel.2.1, hel.2.2⟩, ht, h0, ?_, ?_⟩
            · intro j hj
              rcases Nat.lt_succ_iff_lt_or_eq.mp hj.1 with hlt | hrfl
              · exact hmax j ⟨hlt, hj.2.1, hj.2.2⟩
              · subst hrfl; exact hnle
            · intro j hj hje
              rcases Nat.lt_succ_iff_lt_or_eq.mp hj.1 with hlt | hrfl
              · exact hmin j ⟨hlt, hj.2.1, hj.2.2⟩ hje
              · subst hrfl; exact le_of_lt hel.1

lemma matchStep_of_none {dist : ℚ × ℚ → ℚ × ℚ → ℚ} {t : ℚ} {gts : List GroundTruthShape}
    {st : MatchState} {d : DetectedShape} {v : ℚ}
    (h : bestCandidate t gts st.matched d gts.length = (none, v)) :
    matchStep dist t gts st d = st := by
  unfold matchStep
  rw [h]

lemma matchStep_matched_of_some {dist : ℚ × ℚ → ℚ × ℚ → ℚ} {t : ℚ} {gts : List GroundTruthShape}
    {st : MatchState} {d : DetectedShape} {i : ℕ} {v : ℚ}
    (h : bestCandidate t gts st.matched d gts.length = (some i, v)) :
    (matchStep dist t gts st d).matched = insert i st.matched := by
  unfold matchStep
  rw [h]

lemma matchStep_tp_of_some {dist : ℚ × ℚ → ℚ × ℚ → ℚ} {t : ℚ} {gts : List GroundTruthShape}
    {st : MatchState} {d : DetectedShape} {i : ℕ} {v : ℚ}
    (h : bestCandidate t gts st.matched d gts.length = (some i, v)) :
    (matchStep dist t gts st d).truePositives = st.truePositives + 1 := by
  unfold matchStep
  rw [h]

lemma matchStep_matched_subset (dist : ℚ × ℚ → ℚ × ℚ → ℚ) (t : ℚ)
    (gts : List GroundTruthShape) (st : MatchState) (d : DetectedShape) :
    st.matched ⊆ (matchStep dist t gts st d).matched := by
  rcases h : bestCandidate t gts st.matched d gts.length with ⟨bi, v⟩
  cases bi with
  | none => rw [matchStep_of_none h]
  | some i =>
    rw [matchStep_matched_of_some h]
    exact Finset.subset_insert _ _

/-- Raising the IoU threshold shrinks (pointwise through one greedy step) the
set of matched ground-truth indices: this is the key exchange argument behind
C6. -/
lemma matchStep_matched_mono {t1 t2 : ℚ} (hle : t1 ≤ t2) (dist : ℚ × ℚ → ℚ × ℚ → ℚ)
    (gts : List GroundTruthShape) (st1 st2 : MatchState) (d : DetectedShape)
    (hsub : st2.matched ⊆ st1.matched) :
    (matchStep dist t2 gts st2 d).matched ⊆ (matchStep dist t1 gts st1 d).matched := by
  rcases bestCandidate_spec t2 gts st2.matched d gts.length with
    ⟨h2, _⟩ | ⟨i, h2, hel2, ht2, h02, hmax2, hmin2⟩
  · rw [matchStep_of_none h2]
    exact hsub.trans (matchStep_matched_subset dist t1 gts st1 d)
  · rw [matchStep_matched_of_some h2]
    by_cases hi1 : i ∈ st1.matched
    · exact (Finset.insert_subset hi1 hsub).trans (matchStep_matched_subset dist t1 gts st1 d)
    · rcases bestCandidate_spec t1 gts st1.matched d gts.length with
        ⟨h1, hall1⟩ | ⟨i1, h1, hel1, ht1, h01, hmax1, hmin1⟩
      · exact absurd ⟨lt_of_le_of_lt hle ht2, h02⟩ (hall1 i ⟨hel2.1, hi1, hel2.2.2⟩)
      · have heli : Elig gts st1.matched d gts.length i := ⟨hel2.1, hi1, hel2.2.2⟩
        have heli1 : Elig gts st2.matched d gts.length i1 :=
          ⟨hel1.1, fun hmm => hel1.2.1 (hsub hmm), hel1.2.2⟩
        have heq : iouAt d gts i1 = iouAt d gts i :=
          le_antisymm (hmax2 i1 heli1) (hmax1 i heli)
        have hii : i1 = i := le_antisymm (hmin1 i heli heq.symm) (hmin2 i1 heli1 heq)
        subst hii
        rw [matchStep_matched_of_some h1]
        exact Finset.insert_subset_insert _ hsub

lemma matchFold_matched_mono (dist : ℚ × ℚ → ℚ × ℚ → ℚ) (gts : List GroundTruthShape)
    {t1 t2 : ℚ} (hle : t1 ≤ t2) :
    ∀ (ds : List DetectedShape) (st1 st2 : MatchState), st2.matched ⊆ st1.matched →
      (ds.foldl (matchStep dist t2 gts) st2).matched ⊆
        (ds.foldl (matchStep dist t1 gts) st1).matched := by
  intro ds
  induction ds with
  | nil => exact fun st1 st2 h => h
  | cons d ds ih =>
    intro st1 st2 h
    exact ih _ _ (matchStep_matched_mono hle dist gts st1 st2 d h)

lemma matchFold_tp_card (dist : ℚ × ℚ → ℚ × ℚ → ℚ) (t : ℚ) (gts : List GroundTruthShape) :
    ∀ (ds : List DetectedShape) (st : MatchState), st.truePositives = st.matched.card →
      (ds.foldl (matchStep dist t gts) st).truePositives =
        (ds.foldl (matchStep dist t gts) st).matched.card := by
  intro ds
  induction ds with
  | nil => exact fun st h => h
  | cons d ds ih =>
    intro st h
    refine ih _ ?_
    rcases hbc : bestCandidate t gts st.matched d gts.length with ⟨bi, v⟩
    cases bi with
    | none => rw [matchStep_of_none hbc]; exact h
    | some i =>
      rcases bestCandidate_spec t gts st.matched d gts.length with
        ⟨hn, _⟩ | ⟨i2, hs, hel, _, _, _, _⟩
      · rw [hbc] at hn
        exact absurd (congrArg Prod.fst hn) (by simp)
      · rw [hbc] at hs
        have hi2 : i2 = i := by
          have := congrArg Prod.fst hs
          simpa using this.symm
        subst hi2
        rw [matchStep_tp_of_some hbc, matchStep_matched_of_some hbc,
          Finset.card_insert_of_not_mem hel.2.1, h]

/-- C6: for a fixed detected/ground-truth pair of lists, the number of true
positives produced by the greedy matching of `evaluateDetection`, as a
function of the IoU threshold (0.5 in the code, generalized to a parameter),
is monotonically non-increasing in the threshold. -/
theorem claim_C6 (dist : ℚ × ℚ → ℚ × ℚ → ℚ) (detected : List DetectedShape)
    (groundTruth : List GroundTruthShape) (t1 t2 : ℚ) (h : t1 ≤ t2) :
    truePositivesWith dist t2 detected groundTruth ≤
      truePositivesWith dist t1 detected groundTruth := by
  have e2 := matchFold_tp_card dist t2 groundTruth detected ⟨∅, 0, 0, 0, 0, 0⟩ rfl
  have e1 := matchFold_tp_card dist t1 groundTruth detected ⟨∅, 0, 0, 0, 0, 0⟩ rfl
  have hsub := matchFold_matched_mono dist groundTruth h detected
    ⟨∅, 0, 0, 0, 0, 0⟩ ⟨∅, 0, 0, 0, 0, 0⟩ (Finset.Subset.refl _)
  unfold truePositivesWith matchFold
  rw [e2, e1]
  exact Finset.card_le_card hsub

/-- Concrete detection used by the witnesses: a circle at the unit box
[0,10]×[0,10]. -/
def demoDetected : DetectedShape :=
  { type := ShapeType.circle, confidence := 9/10, boundingBox := ⟨0, 0, 10, 10⟩
    center := (5, 5), area := 100 }

/-- Concrete ground-truth circle fully overlapping `demoDetected`. -/
def demoGT : GroundTruthShape :=
  { type := "circle", center := some (5, 5), bounding_box := ⟨0, 0, 10, 10⟩
    area := some 100, confidence_expected := some (9/10) }

/-- Witness for C6 at thresholds 3/10 ≤ 3/5 on a one-detection instance. -/
theorem claim_C6_witness :
    (3/10 : ℚ) ≤ 3/5 ∧
    truePositivesWith (fun _ _ => 0) (3/5) [demoDetected] [demoGT] ≤
      truePositivesWith (fun _ _ => 0) (3/10) [demoDetected] [demoGT] :=
  ⟨by norm_num, claim_C6 (fun _ _ => 0) [demoDetected] [demoGT] (3/10) (3/5) (by norm_num)⟩

/-- State of the detection loop of `evaluateDetection` viewed as a matching
builder: the matched ground-truth indices, the number of detections processed
so far, and the (detection index, ground-truth index) pairs committed so far.
`evaluateDetection` itself keeps only the matched set and numeric totals; the
link lemma below equates the two folds. -/
structure GreedyState where
  matched : Finset ℕ
  k : ℕ
  pairs : List (ℕ × ℕ)

/-- The matching decision of one iteration of the detection loop, recording
the committed pair when `bestCandidate` finds one. -/
def greedyStep (t : ℚ) (gts : List GroundTruthShape) (st : GreedyState)
    (d : DetectedShape) : GreedyState :=
  match bestCandidate t gts st.matched d gts.length with
  | (none, _) => ⟨st.matched, st.k + 1, st.pairs⟩
  | (some i, _) => ⟨insert i st.matched, st.k + 1, st.pairs ++ [(st.k, i)]⟩

/-- The greedy matching constructed by `evaluateDetection`, as a list of
(detection index, ground-truth index) pairs in detection order. -/
def greedyPairs (t : ℚ) (detected : List DetectedShape)
    (gts : List GroundTruthShape) : List (ℕ × ℕ) :=
  (detected.foldl (greedyStep t gts) ⟨∅, 0, []⟩).pairs

/-- Property of the m-th entry of a matching pairs list: it pairs a detection
index with an in-range ground-truth index of the same type that is unmatched
by the earlier entries, whose IoU strictly exceeds the threshold and is
maximal among the still-unmatched same-type candidates. -/
def PairEntryOK (t : ℚ) (detected : List DetectedShape) (gts : List GroundTruthShape)
    (pairs : List (ℕ × ℕ)) (m : ℕ) : Prop :=
  (pairs.getD m (0, 0)).1 < detected.length
  ∧ (pairs.getD m (0, 0)).2 < gts.length
  ∧ (pairs.getD m (0, 0)).2 ∉ (pairs.take m).map Prod.snd
  ∧ shapeTypeName (detected.getD (pairs.getD m (0, 0)).1 default).type =
      (gts.getD (pairs.getD m (0, 0)).2 default).type
  ∧ t < iouAt (detected.getD (pairs.getD m (0, 0)).1 default) gts (pairs.getD m (0, 0)).2
  ∧ ∀ j, j < gts.length → j ∉ (pairs.take m).map Prod.snd →
      shapeTypeName (detected.getD (pairs.getD m (0, 0)).1 default).type =
        (gts.getD j default).type →
      iouAt (detected.getD (pairs.getD m (0, 0)).1 default) gts j ≤
        iouAt (detected.getD (pairs.getD m (0, 0)).1 default) gts (pairs.getD m (0, 0)).2

/-- Invariant of the greedy matching fold. -/
def PairsInv (t : ℚ) (detected : List DetectedShape) (gts : List GroundTruthShape)
    (st : GreedyState) : Prop :=
  (st.pairs.map Prod.snd).Nodup
  ∧ st.matched = (st.pairs.map Prod.snd).toFinset
  ∧ List.Pairwise (fun a b => a.1 < b.1) st.pairs
  ∧ (∀ q ∈ st.pairs, q.1 < st.k)
  ∧ ∀ m, m < st.pairs.length → PairEntryOK t detected gts st.pairs m

lemma greedyStep_of_none {t : ℚ} {gts : List GroundTruthShape} {st : GreedyState}
    {d : DetectedShape} {v : ℚ}
    (h : bestCandidate t gts st.matched d gts.length = (none, v)) :
    greedyStep t gts st d = ⟨st.matched, st.k + 1, st.pairs⟩ := by
  unfold greedyStep
  rw [h]

lemma greedyStep_of_some {t : ℚ} {gts : List GroundTruthShape} {st : GreedyState}
    {d : DetectedShape} {i : ℕ} {v : ℚ}
    (h : bestCandidate t gts st.matched d gts.length = (some i, v)) :
    greedyStep t gts st d = ⟨insert i st.matched, st.k + 1, st.pairs ++ [(st.k, i)]⟩ := by
  unfold greedyStep
  rw [h]

lemma greedyFold_inv (t : ℚ) (detected : List DetectedShape) (gts : List GroundTruthShape) :
    ∀ (ds : List DetectedShape) (st : GreedyState), PairsInv t detected gts st →
      detected.drop st.k = ds →
      PairsInv t detected gts (ds.foldl (greedyStep t gts) st) := by
  intro ds
  induction ds with
  | nil => exact fun st h _ => h
  | cons d ds ih =>
    intro st hinv hdrop
    obtain ⟨hnd, hmf, hpw, hbound, hentries⟩ := hinv
    have hk : detected.get? st.k = some d := by
      have h0 : (detected.drop st.k).get? 0 = some d := by rw [hdrop]; rfl
      rwa [List.get?_drop, Nat.add_zero] at h0
    obtain ⟨hklen, hget⟩ := List.get?_eq_some.mp hk
    have hgetD : detected.getD st.k default = d := by
      rw [List.getD_eq_get?, hk]
      rfl
    have hdrop2 : detected.drop (st.k + 1) = ds := by
      have : detected.drop (st.k + 1) = (detected.drop st.k).drop 1 := by
        rw [List.drop_drop, Nat.add_comm]
      rw [this, hdrop, List.drop_one]
      rfl
    rcases bestCandidate_spec t gts st.matched d gts.length with
      ⟨hn, _⟩ | ⟨i, hs, hel, ht, h0, hmax, hmin⟩
    · rw [List.foldl_cons, greedyStep_of_none hn]
      refine ih _ ⟨hnd, hmf, hpw, ?_, hentries⟩ hdrop2
      exact fun q hq => Nat.lt_succ_of_lt (hbound q hq)
    · have hinotin : i ∉ st.pairs.map Prod.snd := by
        intro hmem
        exact hel.2.1 (hmf ▸ List.mem_toFinset.mpr hmem)
      rw [List.foldl_cons, greedyStep_of_some hs]
      refine ih _ ⟨?_, ?_, ?_, ?_, ?_⟩ hdrop2
      · rw [List.map_append]
        refine List.Nodup.append hnd (List.nodup_singleton i) ?_
        intro a ha hb
        rw [List.map_singleton, List.mem_singleton] at hb
        subst hb
        exact hinotin ha
      · rw [List.map_append, List.toFinset_append, hmf]
        ext a
        simp [or_comm]
      · refine List.pairwise_append.mpr ⟨hpw, List.pairwise_singleton _ _, ?_⟩
        intro a ha b hb
        rw [List.mem_singleton] at hb
        subst hb
        exact hbound a ha
      · intro q hq
        rcases List.mem_append.mp hq with hq | hq
        · exact Nat.lt_succ_of_lt (hbound q hq)
        · rw [List.mem_singleton] at hq
          subst hq
          exact Nat.lt_succ_self _
      · intro m hm
        rw [List.length_append, List.length_singleton] at hm
        rcases Nat.lt_succ_iff_lt_or_eq.mp hm with hmlt | hmeq
        · have hgd : (st.pairs ++ [(st.k, i)]).getD m (0, 0) = st.pairs.getD m (0, 0) := by
            rw [List.getD_eq_get?, List.getD_eq_get?, List.get?_append hmlt]
          have htk : (st.pairs ++ [(st.k, i)]).take m = st.pairs.take m := by
            rw [List.take_append_eq_append_take,
              Nat.sub_eq_zero_of_le (le_of_lt hmlt), List.take_zero, List.append_nil]
          have := hentries m hmlt
          unfold PairEntryOK at this ⊢
          rw [hgd, htk]
          exact this
        · subst hmeq
          have hgd : (st.pairs ++ [(st.k, i)]).getD st.pairs.length (0, 0) = (st.k, i) := by
            rw [List.getD_eq_get?, List.get?_append_right (le_refl _), Nat.sub_self]
            rfl
          have htk : (st.pairs ++ [(st.k, i)]).take st.pairs.length = st.pairs := by
            rw [List.take_append_eq_append_take, Nat.sub_self, List.take_zero,
              List.append_nil, List.take_length]
          unfold PairEntryOK
          rw [hgd, htk]
          refine ⟨hklen, hel.1, hinotin, ?_, ?_, ?_⟩
          · rw [hgetD]
            exact hel.2.2
          · rw [hgetD]
            exact ht
          · intro j hj1 hj2 hj3
            rw [hgetD] at hj3 ⊢
            refine hmax j ⟨hj1, ?_, hj3⟩
            rw [hmf]
            exact fun hmem => hj2 (List.mem_toFinset.mp hmem)

/-- The metrics fold of `evaluateDetection` and the pairs fold walk the same
matched sets, and the true-positive counter is the number of committed
pairs. -/
lemma matchFold_greedy_link (dist : ℚ × ℚ → ℚ × ℚ → ℚ) (t : ℚ) (gts : List GroundTruthShape) :
    ∀ (ds : List DetectedShape) (mst : MatchState) (gst : GreedyState),
      mst.matched = gst.matched → mst.truePositives = gst.pairs.length →
      ((ds.foldl (matchStep dist t gts) mst).matched =
        (ds.foldl (greedyStep t gts) gst).matched
       ∧ (ds.foldl (matchStep dist t gts) mst).truePositives =
        (ds.foldl (greedyStep t gts) gst).pairs.length) := by
  intro ds
  induction ds with
  | nil => exact fun mst gst hm ht => ⟨hm, ht⟩
  | cons d ds ih =>
    intro mst gst hm ht
    rcases hbc : bestCandidate t gts mst.matched d gts.length with ⟨bi, v⟩
    have hbc2 : bestCandidate t gts gst.matched d gts.length = (bi, v) := by
      rw [← hm]
      exact hbc
    cases bi with
    | none =>
      rw [List.foldl_cons, List.foldl_cons, matchStep_of_none hbc, greedyStep_of_none hbc2]
      exact ih _ _ hm ht
    | some i =>
      rw [List.foldl_cons, List.foldl_cons, greedyStep_of_some hbc2]
      refine ih _ _ ?_ ?_
      · rw [matchStep_matched_of_some hbc, hm]
      · rw [matchStep_tp_of_some hbc, ht, List.length_append]
        rfl

/-- C3: the greedy matching of `evaluateDetection` processes detections in
order; each committed pair takes a maximum-IoU still-unmatched same-type
ground-truth index with IoU strictly above 0.5; no ground-truth index is
assigned twice (the matching is a partial injective function); and the
true-positive count of `evaluateDetection` is the number of committed
pairs. -/
theorem claim_C3 (detected : List DetectedShape) (gts : List GroundTruthShape) :
    ((greedyPairs (1/2) detected gts).map Prod.snd).Nodup
    ∧ List.Pairwise (fun a b => a.1 < b.1) (greedyPairs (1/2) detected gts)
    ∧ (∀ dist : ℚ × ℚ → ℚ × ℚ → ℚ,
        truePositivesWith dist (1/2) detected gts = (greedyPairs (1/2) detected gts).length)
    ∧ ∀ m, m < (greedyPairs (1/2) detected gts).length →
        PairEntryOK (1/2) detected gts (greedyPairs (1/2) detected gts) m := by
  have hinv := greedyFold_inv (1/2) detected gts detected ⟨∅, 0, []⟩
    ⟨List.nodup_nil, rfl, List.Pairwise.nil,
      fun q hq => absurd hq (List.not_mem_nil q),
      fun m hm => absurd hm (Nat.not_lt_zero m)⟩ rfl
  obtain ⟨hnd, _, hpw, _, hentries⟩ := hinv
  refine ⟨hnd, hpw, fun dist => ?_, hentries⟩
  exact (matchFold_greedy_link dist (1/2) gts detected ⟨∅, 0, 0, 0, 0, 0⟩ ⟨∅, 0, []⟩ rfl rfl).2

/-- Witness for C3: on the one-detection instance the single committed pair
satisfies the per-entry matching property. -/
theorem claim_C3_witness :
    0 < (greedyPairs (1/2) [demoDetected] [demoGT]).length ∧
    PairEntryOK (1/2) [demoDetected] [demoGT] (greedyPairs (1/2) [demoDetected] [demoGT]) 0 :=
  ⟨by decide!, (claim_C3 [demoDetected] [demoGT]).2.2.2 0 (by decide!)⟩

/-- A pixel coordinate, as the `{x, y}` points of `main.ts`; integer-valued
because neighbor offsets can leave the image before the bounds check. -/
structure Pt where
  x : ℤ
  y : ℤ
deriving DecidableEq, Repr, Inhabited

/-- The eight neighbor offsets of `detectShapes` (4 axis + 4 diagonal), in
source order. -/
def dirs : List (ℤ × ℤ) :=
  [(1, 0), (-1, 0), (0, 1), (0, -1), (1, 1), (1, -1), (-1, 1), (-1, -1)]

/-- Decoded RGBA buffer (`ImageData`): `data` is the flat byte array, four
bytes per pixel in RGBA order. -/
structure ImageData where
  width : ℕ
  height : ℕ
  data : ℕ → ℕ

/-- JavaScript `Math.min` on two numbers (integer case). -/
def intMin (a b : ℤ) : ℤ := if a ≤ b then a else b

/-- JavaScript `Math.max` on two numbers (integer case). -/
def intMax (a b : ℤ) : ℤ := if a ≤ b then b else a

/-- The exact value of the IEEE-754 double `Math.PI`. -/
def piJS : ℚ := 884279719003555 / 281474976710656

/-- Storing into a `Uint8ClampedArray`: clamp to [0, 255], round to nearest,
ties to even. -/
def clampByte (q : ℚ) : ℕ :=
  if q ≤ 0 then 0
  else if 255 ≤ q then 255
  else
    (if q - ⌊q⌋ < 1/2 then ⌊q⌋
     else if 1/2 < q - ⌊q⌋ then ⌊q⌋ + 1
     else if ⌊q⌋ % 2 = 0 then ⌊q⌋ else ⌊q⌋ + 1).toNat

/-- STEP 1 of `detectShapes`: grayscale value of pixel `p`,
`0.299 r + 0.587 g + 0.114 b` stored into a `Uint8ClampedArray`. -/
def grayAt (img : ImageData) (p : ℕ) : ℕ :=
  clampByte (299/1000 * img.data (4*p) + 587/1000 * img.data (4*p + 1)
    + 114/1000 * img.data (4*p + 2))

/-- The grayscale array (`gray` in the source). -/
def grayList (img : ImageData) : List ℕ :=
  (List.range (img.width * img.height)).map (grayAt img)

/-- Sum of the grayscale values; the JavaScript double sum is exact here
because all summands are integers. -/
def graySum (img : ImageData) : ℕ := (grayList img).sum

/-- STEP 2: global mean luminance `avg`.  (For a zero-area buffer the source
produces NaN and never uses it; the model returns 0 and never uses it.) -/
def avgOf (img : ImageData) : ℚ :=
  (graySum img : ℚ) / ((img.width * img.height : ℕ) : ℚ)

/-- Number of pixels strictly darker than the mean. -/
def darkCount (img : ImageData) : ℕ :=
  (grayList img).countP (fun g => decide ((g : ℚ) < avgOf img))

/-- Number of pixels at or above the mean (the `else` branch of the source
loop). -/
def lightCount (img : ImageData) : ℕ :=
  (grayList img).countP (fun g => decide (¬ (g : ℚ) < avgOf img))

/-- Polarity detection: shapes are light iff light pixels are the minority. -/
def shapesAreLight (img : ImageData) : Bool :=
  decide (lightCount img < darkCount img)

/-- STEP 2: the binary foreground mask (`binary` in the source), a flat
array indexed by `y * width + x`. -/
def binList (img : ImageData) : List Bool :=
  let avg := avgOf img
  let light := shapesAreLight img
  (grayList img).map
    (fun g => if light then decide (avg < (g : ℚ)) else decide ((g : ℚ) < avg))

/-- A flat boolean array packed into a natural-number bit vector: bit `i`
holds entry `i`.  Used to give the masks of `detectShapes` constant-time
indexing in the kernel. -/
def maskOfBits (l : List Bool) : ℕ :=
  l.foldr (fun b acc => 2 * acc + (if b then 1 else 0)) 0

/-- Mask lookup `binary[y*width + x]` (callers bound-check first, as the
source does before indexing). -/
def binAt (w : ℕ) (bin : ℕ) (x y : ℤ) : Bool :=
  bin.testBit (y * w + x).toNat

/-- The bounds test of the source loops (`nx < 0 || ny < 0 || nx >= width ||
ny >= height` skips the neighbor). -/
def inBounds (w h : ℕ) (x y : ℤ) : Bool :=
  decide (0 ≤ x ∧ 0 ≤ y ∧ x < (w : ℤ) ∧ y < (h : ℤ))

/-- Visited-mask lookup (`visited[index(x, y)]`), like `binAt`. -/
def visAt (w : ℕ) (vis : ℕ) (x y : ℤ) : Bool :=
  vis.testBit (y * w + x).toNat

/-- Visited-mask update (`visited[index(x, y)] = 1`). -/
def visSet (w : ℕ) (vis : ℕ) (x y : ℤ) : ℕ :=
  vis ||| (1 <<< (y * w + x).toNat)

/-- STEP 3, inner loop: flood fill with an explicit stack.  JavaScript
`push`/`pop` act on the array end, so the list head models the stack top and
a neighbor accepted later in `dirs` order is popped earlier, exactly as in
the source.  Pixels are recorded in pop order.  `fuel` bounds the iteration
count; `width*height + 1` suffices because every push marks an unvisited
pixel visited. -/
def bfsStep (w h bin : ℕ) (p : Pt) (st : List Pt × ℕ) (dxy : ℤ × ℤ) : List Pt × ℕ :=
  let nx := p.x + dxy.1
  let ny := p.y + dxy.2
  if inBounds w h nx ny && binAt w bin nx ny && !(visAt w st.2 nx ny) then
    (⟨nx, ny⟩ :: st.1, visSet w st.2 nx ny)
  else st

/-- The flood-fill loop driver; see `bfsStep` for one neighbor probe. -/
def bfs (w h : ℕ) (bin : ℕ) :
    ℕ → List Pt → ℕ → List Pt → List Pt × ℕ
  | 0, _, visited, pixels => (pixels, visited)
  | _ + 1, [], visited, pixels => (pixels, visited)
  | fuel + 1, p :: stack, visited, pixels =>
    let next := dirs.foldl (bfsStep w h bin p) (stack, visited)
    bfs w h bin fuel next.1 next.2 (pixels ++ [p])

/-- One probe of the outer scan of STEP 3: an unvisited foreground pixel
starts a flood fill whose pixel list is appended to the region list; the
visited mask persists. -/
def scanStep (w h bin : ℕ) (st : List (List Pt) × ℕ) (c : ℤ × ℤ) : List (List Pt) × ℕ :=
  if binAt w bin c.1 c.2 && !(visAt w st.2 c.1 c.2) then
    let r := bfs w h bin (w * h + 1) [⟨c.1, c.2⟩] (visSet w st.2 c.1 c.2) []
    (st.1 ++ [r.1], r.2)
  else st

/-- STEP 3, outer loop: row-major scan over a zero-initialized visited mask
(`new Uint8Array(width*height)`); every unvisited foreground pixel starts a
flood fill, and the visited mask persists across components. -/
def findRegions (w h : ℕ) (bin : ℕ) : List (List Pt) :=
  let coords := (List.range h).bind
    (fun y => (List.range w).map (fun x => ((x : ℤ), (y : ℤ))))
  (coords.foldl (scanStep w h bin) ([], 0)).1

/-- Boundary test of STEPS 4-5: a region pixel is a boundary pixel when one
of its 8 neighbors lies in bounds and is background.  Out-of-bounds neighbors
are skipped by the `continue` in the source loop, so they never make a pixel
a boundary pixel. -/
def edgeAt (w h : ℕ) (bin : ℕ) (p : Pt) : Bool :=
  dirs.any (fun dxy =>
    inBounds w h (p.x + dxy.1) (p.y + dxy.2) &&
      !(binAt w bin (p.x + dxy.1) (p.y + dxy.2)))

/-- Perimeter of STEP 4: the number of region pixels that are boundary
pixels. -/
def perimeterOf (w h : ℕ) (bin : ℕ) (pixels : List Pt) : ℕ :=
  pixels.countP (edgeAt w h bin)

/-- Corner test of STEP 5 for one boundary sample (p1, p2, p3).  The source
computes `angle = acos(clamp(dot / (mag + 1e-6), -1, 1))` with
`mag = sqrt |v1|² * sqrt |v2|²` and counts a corner when
`π/4 < angle < 3π/4`.  Since `acos` is strictly decreasing, this holds iff
`clamp(dot/(mag+ε))` lies in `(-√2/2, √2/2)`, iff `(dot/(mag+ε))² < 1/2`
(the clamp cannot move a value into that interval), iff
`2·dot² < (mag+ε)² = m2 + ε² + 2ε·√m2` where `m2 = |v1|²·|v2|²`; writing
`L = 2·dot² - m2 - ε²` this is `L < 0 ∨ L² < 4ε²·m2`, a rational test.
`isCorner_iff_angle` below proves this equivalence against the real-valued
source formula. -/
def isCorner (p1 p2 p3 : Pt) : Bool :=
  let v1x := p2.x - p1.x
  let v1y := p2.y - p1.y
  let v2x := p3.x - p2.x
  let v2y := p3.y - p2.y
  let dot := v1x * v2x + v1y * v2y
  let m2 := (v1x^2 + v1y^2) * (v2x^2 + v2y^2)
  let eps : ℚ := 1/1000000
  let L : ℚ := 2 * (dot : ℚ)^2 - (m2 : ℚ) - eps^2
  decide (L < 0 ∨ L^2 < 4 * eps^2 * (m2 : ℚ))

/-- STEP 5: boundary corner estimate.  The source samples boundary indices
`0, s, 2s, ...` with stride `s = floor(len/20) + 1` (so the sample count is
`ceil(len/s)`; an empty boundary yields no samples) and tests each sampled
point against its two successors modulo the boundary length. -/
def cornerCount (boundary : List Pt) : ℕ :=
  let len := boundary.length
  let stride := len / 20 + 1
  ((List.range ((len + stride - 1) / stride)).map (fun k => k * stride)).countP
    (fun i => isCorner (boundary.getD i default)
      (boundary.getD ((i + 1) % len) default)
      (boundary.getD ((i + 2) % len) default))

/-- STEP 4: `Math.min(...xs)` over the region's x coordinates, as a fold of
the binary `Math.min`; on the nonempty regions reaching this step it is the
least x coordinate. -/
def minXOf (pixels : List Pt) : ℤ :=
  (pixels.map Pt.x).foldl intMin ((pixels.map Pt.x).headD 0)

/-- STEP 4: `Math.max(...xs)`. -/
def maxXOf (pixels : List Pt) : ℤ :=
  (pixels.map Pt.x).foldl intMax ((pixels.map Pt.x).headD 0)

/-- STEP 4: `Math.min(...ys)`. -/
def minYOf (pixels : List Pt) : ℤ :=
  (pixels.map Pt.y).foldl intMin ((pixels.map Pt.y).headD 0)

/-- STEP 4: `Math.max(...ys)`. -/
def maxYOf (pixels : List Pt) : ℤ :=
  (pixels.map Pt.y).foldl intMax ((pixels.map Pt.y).headD 0)

/-- STEPS 4-7 for one connected component: the small-component skip
(`pixels.length < 40`), the geometric features, the four noise-rejection
gates and the classification decision tree, producing the pushed
`DetectedShape` (or nothing).  The source initializes `type`/`confidence`
to ("rectangle", 0.5) but overwrites them on every path of the decision
tree, so the pair is modelled by the tree directly.  In the star/rectangle
branch the source evaluates `bbox.width / bbox.height`; after the gates the
height is at least 1 (claim C8), so the rational division agrees with the
JavaScript one (no division by zero is reachable). -/
def classifyRegion (w h : ℕ) (bin : ℕ) (pixels : List Pt) : Option DetectedShape :=
  if pixels.length < 40 then none
  else
    let minX := minXOf pixels
    let maxX := maxXOf pixels
    let minY := minYOf pixels
    let maxY := maxYOf pixels
    let area : ℕ := pixels.length
    let bw : ℤ := maxX - minX
    let bh : ℤ := maxY - minY
    let bbox : Box := ⟨(minX : ℚ), (minY : ℚ), (bw : ℚ), (bh : ℚ)⟩
    let center : ℚ × ℚ := (((minX : ℚ) + (maxX : ℚ)) / 2, ((minY : ℚ) + (maxY : ℚ)) / 2)
    let perim : ℕ := perimeterOf w h bin pixels
    let circularity : ℚ := 4 * piJS * (area : ℚ) / ((perim : ℚ) * (perim : ℚ) + 1/1000000)
    let boundary := pixels.filter (edgeAt w h bin)
    let corners : ℕ := cornerCount boundary
    let bboxArea : ℚ := (bw : ℚ) * (bh : ℚ)
    let fill : ℚ := (area : ℚ) / (bboxArea + 1/1000000)
    let aspect : ℚ := ((intMax bw bh : ℤ) : ℚ) / ((intMax 1 (intMin bw bh) : ℤ) : ℚ)
    let thin : ℚ := (perim : ℚ) / ((area : ℚ) + 1)
    if area < 300 then none
    else if fill < 1/5 then none
    else if aspect > 4 then none
    else if thin > 1/2 then none
    else
      let tc : ShapeType × ℚ :=
        if circularity > 3/4 then (ShapeType.circle, circularity)
        else if corners ≤ 4 then (ShapeType.triangle, 9/10)
        else if corners ≤ 6 then (ShapeType.pentagon, 17/20)
        else if (bw : ℚ) / (bh : ℚ) < 6/5 ∧ circularity < 2/5 then (ShapeType.star, 4/5)
        else (ShapeType.rectangle, 4/5)
      some ⟨tc.1, tc.2, bbox, center, (area : ℚ)⟩

/-- Translation of `ShapeDetector.detectShapes` (`main.ts`): binarize,
segment, and classify each surviving component in scan order.  Wall-clock
time is not modelled and reported as 0. -/
def detectShapes (img : ImageData) : DetectionResult :=
  let bin := maskOfBits (binList img)
  { shapes := (findRegions img.width img.height bin).filterMap
      (classifyRegion img.width img.height bin)
    processingTime := 0
    imageWidth := img.width
    imageHeight := img.height }

/-- Error view of `detectShapes`: the source body contains no input
validation and no throw, so the computation reaches the caller as a normal
value for every buffer; the `Option` layer records the (absent) failure
outcome. -/
def detectShapesE (img : ImageData) : Option DetectionResult :=
  some (detectShapes img)

/-- Noise-gate and shape facts recorded by a successful classification: the
region has at least 300 pixels, the aspect gate passed, and the produced
shape carries the region's bounding box, area and a confidence above 3/4. -/
lemma classifyRegion_gates (w h : ℕ) (bin : ℕ) (pixels : List Pt) (s : DetectedShape)
    (hc : classifyRegion w h bin pixels = some s) :
    300 ≤ pixels.length
    ∧ ¬ ((((intMax (maxXOf pixels - minXOf pixels) (maxYOf pixels - minYOf pixels) : ℤ) : ℚ)) /
        (((intMax 1 (intMin (maxXOf pixels - minXOf pixels) (maxYOf pixels - minYOf pixels)) : ℤ) : ℚ)) > 4)
    ∧ s.boundingBox = ⟨(minXOf pixels : ℚ), (minYOf pixels : ℚ),
        ((maxXOf pixels - minXOf pixels : ℤ) : ℚ), ((maxYOf pixels - minYOf pixels : ℤ) : ℚ)⟩
    ∧ s.area = (pixels.length : ℚ)
    ∧ 3/4 < s.confidence := by
  simp only [classifyRegion] at hc
  split_ifs at hc with h40 h300 hfill hasp hthin hcirc hc4 hc6 hstar
  all_goals obtain rfl := Option.some.inj hc
  all_goals refine ⟨by omega, hasp, rfl, rfl, ?_⟩
  · exact hcirc
  · norm_num
  · norm_num
  · norm_num
  · norm_num

/-- C1 (amended): every shape returned by `detectShapes` has area at least
300 and confidence strictly above 3/4; the upper bound 1 claimed for the
confidence does not hold (see the counterexample), because in the circle
branch the confidence is the raw circularity. -/
theorem claim_C1 (img : ImageData) (s : DetectedShape)
    (h : s ∈ (detectShapes img).shapes) : 300 ≤ s.area ∧ 3/4 < s.confidence := by
  obtain ⟨pixels, ⟨hp, hc⟩⟩ := List.mem_filterMap.mp h
  obtain ⟨h300, _, _, harea, hconf⟩ := classifyRegion_gates _ _ _ pixels s hc
  refine ⟨?_, hconf⟩
  rw [harea]
  exact_mod_cast h300

/-- The 30×20 RGBA buffer whose top half is white and bottom half is black:
binarization makes the 300 black pixels the foreground, one region spanning
rows 10-19.  Its perimeter count is 30 (only row 10 has in-bounds background
neighbors), so circularity = 4π·300/(900 + 1e-6) ≈ 4.19. -/
def img3020 : ImageData :=
  ⟨30, 20, fun n => if n % 4 = 3 then 255 else if n / 4 / 30 ≤ 9 then 255 else 0⟩

set_option maxRecDepth 1000000 in
/-- C1 counterexample: on `img3020`, `detectShapes` returns a shape of type
circle whose confidence exceeds 1. -/
theorem claim_C1_counterexample :
    ∃ s ∈ (detectShapes img3020).shapes, s.type = ShapeType.circle ∧ 1 < s.confidence := by
  decide!

set_option maxRecDepth 1000000 in
/-- Witness for C1 on the first shape detected in `img3020`. -/
theorem claim_C1_witness :
    ((detectShapes img3020).shapes.headD default ∈ (detectShapes img3020).shapes) ∧
    (300 ≤ ((detectShapes img3020).shapes.headD default).area ∧
      3/4 < ((detectShapes img3020).shapes.headD default).confidence) := by
  have hmem : (detectShapes img3020).shapes.headD default ∈ (detectShapes img3020).shapes := by
    decide!
  exact ⟨hmem, claim_C1 img3020 _ hmem⟩

/-- Perimeter as the specification words it: a region pixel counts when at
least one 8-neighbor lies outside the region or outside the image bounds.
For a connected region every in-bounds foreground 8-neighbor belongs to the
same region, so outside the region is rendered as background. -/
def perimeterClaim (w h : ℕ) (bin : ℕ) (pixels : List Pt) : ℕ :=
  pixels.countP (fun p => dirs.any (fun dxy =>
    !(inBounds w h (p.x + dxy.1) (p.y + dxy.2)) ||
      !(binAt w bin (p.x + dxy.1) (p.y + dxy.2))))

/-- Boolean/existential reading of the boundary test used by `detectShapes`. -/
lemma edgeAt_iff (w h : ℕ) (bin : ℕ) (p : Pt) :
    edgeAt w h bin p = true ↔ ∃ dxy ∈ dirs,
      inBounds w h (p.x + dxy.1) (p.y + dxy.2) = true ∧
      binAt w bin (p.x + dxy.1) (p.y + dxy.2) = false := by
  simp [edgeAt, List.any_eq_true, Bool.and_eq_true, Bool.not_eq_true']

set_option maxRecDepth 1000000 in
/-- C2 counterexample: the perimeter computed by `detectShapes` does not
count pixels whose only non-region neighbors are out of bounds.  On a 2×2
all-foreground mask (mask bits 15) the code counts 0 boundary pixels while
the claimed count is 4; on the region `detectShapes` finds in `img3020`
(rows 10-19, touching three image borders) the code counts 30 while the
claimed count is 76. -/
theorem claim_C2_counterexample :
    perimeterOf 2 2 15 [⟨0, 0⟩, ⟨1, 0⟩, ⟨0, 1⟩, ⟨1, 1⟩] = 0
    ∧ perimeterClaim 2 2 15 [⟨0, 0⟩, ⟨1, 0⟩, ⟨0, 1⟩, ⟨1, 1⟩] = 4
    ∧ perimeterOf 2 2 15 [⟨0, 0⟩, ⟨1, 0⟩, ⟨0, 1⟩, ⟨1, 1⟩] ≠
        perimeterClaim 2 2 15 [⟨0, 0⟩, ⟨1, 0⟩, ⟨0, 1⟩, ⟨1, 1⟩]
    ∧ perimeterOf 30 20 (maskOfBits (binList img3020))
        ((findRegions 30 20 (maskOfBits (binList img3020))).headD []) = 30
    ∧ perimeterClaim 30 20 (maskOfBits (binList img3020))
        ((findRegions 30 20 (maskOfBits (binList img3020))).headD []) = 76 := by
  decide!

/-- C2 (amended): the perimeter computed by `detectShapes` counts exactly the
region pixels having at least one in-bounds background 8-neighbor;
out-of-bounds neighbors never contribute, so a border pixel whose only
non-region neighbors are outside the image is not counted. -/
theorem claim_C2 (w h : ℕ) (bin : ℕ) (pixels : List Pt) :
    perimeterOf w h bin pixels =
      (pixels.filter (fun p => decide (∃ dxy ∈ dirs,
        inBounds w h (p.x + dxy.1) (p.y + dxy.2) = true ∧
        binAt w bin (p.x + dxy.1) (p.y + dxy.2) = false))).length := by
  unfold perimeterOf
  rw [List.countP_eq_length_filter]
  congr 1
  refine List.filter_congr (fun p _ => ?_)
  rw [Bool.eq_iff_iff, decide_eq_true_iff]
  exact edgeAt_iff w h bin p

/-- The zero-area buffer. -/
def img00 : ImageData := ⟨0, 0, fun _ => 0⟩

/-- C5 counterexample: on a zero-area buffer `detectShapes` does not signal
any error — the computation completes normally with an empty shape list,
contradicting the claimed InputError. -/
theorem claim_C5_counterexample :
    img00.width = 0 ∧ detectShapesE img00 ≠ none ∧ (detectShapes img00).shapes = [] := by
  refine ⟨rfl, by simp [detectShapesE], by decide!⟩

/-- C5 (amended): `detectShapes` never fails: its body contains no input
validation and no throw, so every buffer (zero-area ones included) produces
a normal result; on a zero-area buffer the returned shape list is empty. -/
theorem claim_C5 (img : ImageData) :
    (detectShapesE img).isSome = true
    ∧ ((img.width = 0 ∨ img.height = 0) → (detectShapes img).shapes = []) := by
  refine ⟨rfl, fun h0 => ?_⟩
  have hcoords : ((List.range img.height).bind
      (fun y => (List.range img.width).map (fun x => ((x : ℤ), (y : ℤ))))) = [] := by
    rcases h0 with h0 | h0 <;> rw [h0] <;> simp
  simp only [detectShapes]
  simp only [findRegions]
  rw [hcoords]
  rfl

/-- Witness for C5 at the zero-area buffer. -/
theorem claim_C5_witness :
    (detectShapesE img00).isSome = true ∧ (img00.width = 0 ∨ img00.height = 0) ∧
    (detectShapes img00).shapes = [] :=
  ⟨(claim_C5 img00).1, Or.inl rfl, (claim_C5 img00).2 (Or.inl rfl)⟩

lemma intMin_le_left (a b : ℤ) : intMin a b ≤ a := by
  unfold intMin
  split_ifs with hab
  · exact le_refl a
  · exact le_of_lt (not_le.mp hab)

lemma intMin_le_right (a b : ℤ) : intMin a b ≤ b := by
  unfold intMin
  split_ifs with hab
  · exact hab
  · exact le_refl b

lemma left_le_intMax (a b : ℤ) : a ≤ intMax a b := by
  unfold intMax
  split_ifs with hab
  · exact hab
  · exact le_refl a

lemma right_le_intMax (a b : ℤ) : b ≤ intMax a b := by
  unfold intMax
  split_ifs with hab
  · exact le_refl b
  · exact le_of_lt (not_le.mp hab)

lemma foldl_intMin_le (l : List ℤ) : ∀ a : ℤ,
    l.foldl intMin a ≤ a ∧ ∀ x ∈ l, l.foldl intMin a ≤ x := by
  induction l with
  | nil => exact fun a => ⟨le_refl a, by simp⟩
  | cons y l ih =>
    intro a
    refine ⟨le_trans (ih (intMin a y)).1 (intMin_le_left a y), ?_⟩
    intro x hx
    rcases List.mem_cons.mp hx with rfl | hx
    · exact le_trans (ih (intMin a x)).1 (intMin_le_right a x)
    · exact (ih (intMin a y)).2 x hx

lemma le_foldl_intMax (l : List ℤ) : ∀ a : ℤ,
    a ≤ l.foldl intMax a ∧ ∀ x ∈ l, x ≤ l.foldl intMax a := by
  induction l with
  | nil => exact fun a => ⟨le_refl a, by simp⟩
  | cons y l ih =>
    intro a
    refine ⟨le_trans (left_le_intMax a y) (ih (intMax a y)).1, ?_⟩
    intro x hx
    rcases List.mem_cons.mp hx with rfl | hx
    · exact le_trans (right_le_intMax a x) (ih (intMax a x)).1
    · exact (ih (intMax a y)).2 x hx

lemma minXOf_le {pixels : List Pt} {p : Pt} (hp : p ∈ pixels) : minXOf pixels ≤ p.x :=
  (foldl_intMin_le (pixels.map Pt.x) _).2 p.x (List.mem_map.mpr ⟨p, hp, rfl⟩)

lemma le_maxXOf {pixels : List Pt} {p : Pt} (hp : p ∈ pixels) : p.x ≤ maxXOf pixels :=
  (le_foldl_intMax (pixels.map Pt.x) _).2 p.x (List.mem_map.mpr ⟨p, hp, rfl⟩)

lemma minYOf_le {pixels : List Pt} {p : Pt} (hp : p ∈ pixels) : minYOf pixels ≤ p.y :=
  (foldl_intMin_le (pixels.map Pt.y) _).2 p.y (List.mem_map.mpr ⟨p, hp, rfl⟩)

lemma le_maxYOf {pixels : List Pt} {p : Pt} (hp : p ∈ pixels) : p.y ≤ maxYOf pixels :=
  (le_foldl_intMax (pixels.map Pt.y) _).2 p.y (List.mem_map.mpr ⟨p, hp, rfl⟩)

lemma visAt_visSet_self (w : ℕ) (vis : ℕ) (x y : ℤ) :
    visAt w (visSet w vis x y) x y = true := by
  unfold visAt visSet
  rw [Nat.testBit_lor, Nat.shiftLeft_eq, one_mul, Nat.testBit_two_pow_self]
  exact Bool.or_true _

lemma visAt_visSet_mono {w : ℕ} {vis : ℕ} {x y a b : ℤ}
    (hab : visAt w vis a b = true) : visAt w (visSet w vis x y) a b = true := by
  unfold visAt at hab
  unfold visAt visSet
  rw [Nat.testBit_lor, hab]
  exact Bool.true_or _

lemma bfsStep_inv (w h bin : ℕ) (p : Pt) (P : List Pt) (st : List Pt × ℕ) (dxy : ℤ × ℤ)
    (hnd : (P ++ st.1).Nodup) (hvis : ∀ q ∈ P ++ st.1, visAt w st.2 q.x q.y = true) :
    ((P ++ (bfsStep w h bin p st dxy).1).Nodup ∧
      ∀ q ∈ P ++ (bfsStep w h bin p st dxy).1,
        visAt w (bfsStep w h bin p st dxy).2 q.x q.y = true) := by
  simp only [bfsStep]
  split_ifs with hcond
  · simp only [Bool.and_eq_true, Bool.not_eq_true'] at hcond
    constructor
    · have hnotmem : (⟨p.x + dxy.1, p.y + dxy.2⟩ : Pt) ∉ P ++ st.1 := by
        intro hmem
        have hv : visAt w st.2 (p.x + dxy.1) (p.y + dxy.2) = true := hvis _ hmem
        simp [hv] at hcond
      exact (@List.nodup_middle Pt ⟨p.x + dxy.1, p.y + dxy.2⟩ P st.1).mpr
        (List.nodup_cons.mpr ⟨hnotmem, hnd⟩)
    · intro q hq
      rcases List.mem_append.mp hq with hq | hq
      · exact visAt_visSet_mono (hvis q (List.mem_append.mpr (Or.inl hq)))
      · rcases List.mem_cons.mp hq with rfl | hq
        · exact visAt_visSet_self w st.2 _ _
        · exact visAt_visSet_mono (hvis q (List.mem_append.mpr (Or.inr hq)))
  · exact ⟨hnd, hvis⟩

lemma bfsFold_inv (w h bin : ℕ) (p : Pt) (P : List Pt) :
    ∀ (l : List (ℤ × ℤ)) (st : List Pt × ℕ),
      (P ++ st.1).Nodup → (∀ q ∈ P ++ st.1, visAt w st.2 q.x q.y = true) →
      ((P ++ (l.foldl (bfsStep w h bin p) st).1).Nodup ∧
        ∀ q ∈ P ++ (l.foldl (bfsStep w h bin p) st).1,
          visAt w (l.foldl (bfsStep w h bin p) st).2 q.x q.y = true) := by
  intro l
  induction l with
  | nil => exact fun st hnd hvis => ⟨hnd, hvis⟩
  | cons dxy l ih =>
    intro st hnd hvis
    obtain ⟨hnd2, hvis2⟩ := bfsStep_inv w h bin p P st dxy hnd hvis
    exact ih _ hnd2 hvis2

/-- Every pixel list produced by the flood fill is duplicate-free: pixels are
marked visited when pushed and only unvisited pixels are ever pushed. -/
lemma bfs_nodup (w h bin : ℕ) :
    ∀ (fuel : ℕ) (stack : List Pt) (vis : ℕ) (pixels : List Pt),
      (pixels ++ stack).Nodup → (∀ q ∈ pixels ++ stack, visAt w vis q.x q.y = true) →
      (bfs w h bin fuel stack vis pixels).1.Nodup := by
  intro fuel
  induction fuel with
  | zero =>
    intro stack vis pixels hnd hvis
    exact ((List.sublist_append_left pixels stack).nodup hnd)
  | succ fuel ih =>
    intro stack vis pixels hnd hvis
    rcases stack with _ | ⟨p, rest⟩
    · exact (List.append_nil pixels ▸ hnd)
    · show (bfs w h bin (fuel + 1) (p :: rest) vis pixels).1.Nodup
      have hre : pixels ++ p :: rest = (pixels ++ [p]) ++ rest := by
        rw [List.append_cons]
      rw [hre] at hnd hvis
      obtain ⟨hnd2, hvis2⟩ := bfsFold_inv w h bin p (pixels ++ [p]) dirs (rest, vis) hnd hvis
      exact ih _ _ _ hnd2 hvis2

/-- Every region returned by the segmentation scan is duplicate-free. -/
lemma findRegions_nodup (w h bin : ℕ) : ∀ r ∈ findRegions w h bin, r.Nodup := by
  unfold findRegions
  suffices hgen : ∀ (coords : List (ℤ × ℤ)) (st : List (List Pt) × ℕ),
      (∀ r ∈ st.1, r.Nodup) →
      ∀ r ∈ (coords.foldl (scanStep w h bin) st).1, r.Nodup by
    intro r hr
    exact hgen _ ([], 0) (by simp) r hr
  intro coords
  induction coords with
  | nil => exact fun st hst => hst
  | cons c rest ih =>
    intro st hst
    refine ih _ ?_
    unfold scanStep
    split_ifs with hcond
    · intro r hr
      rcases List.mem_append.mp hr with hr | hr
      · exact hst r hr
      · rcases List.mem_singleton.mp hr with rfl
        refine bfs_nodup w h bin _ _ _ _ (by simp) ?_
        intro q hq
        simp only [List.nil_append, List.mem_singleton] at hq
        subst hq
        exact visAt_visSet_self w st.2 c.1 c.2
    · exact hst

/-- Pigeonhole along a row: duplicate-free pixels sharing one y coordinate
have pairwise distinct x coordinates inside [lo, hi]. -/
lemma length_le_of_const_y (pixels : List Pt) (hnd : pixels.Nodup) (c : ℤ)
    (hy : ∀ p ∈ pixels, p.y = c) (lo hi : ℤ)
    (hx : ∀ p ∈ pixels, lo ≤ p.x ∧ p.x ≤ hi) :
    (pixels.length : ℤ) ≤ max (hi - lo + 1) 0 := by
  have hmapnd : (pixels.map Pt.x).Nodup := by
    refine List.Nodup.map_on ?_ hnd
    intro p hp q hq hxy
    have hyy : p.y = q.y := (hy p hp).trans (hy q hq).symm
    cases p
    cases q
    simp_all
  have hsub : (pixels.map Pt.x).toFinset ⊆ Finset.Icc lo hi := by
    intro x hxm
    rw [List.mem_toFinset] at hxm
    obtain ⟨p, hp, rfl⟩ := List.mem_map.mp hxm
    exact Finset.mem_Icc.mpr ⟨(hx p hp).1, (hx p hp).2⟩
  have hcard := Finset.card_le_card hsub
  rw [List.toFinset_card_of_nodup hmapnd, List.length_map, Int.card_Icc] at hcard
  calc (pixels.length : ℤ) ≤ ((hi + 1 - lo).toNat : ℤ) := by exact_mod_cast hcard
    _ = max (hi + 1 - lo) 0 := Int.toNat_eq_max _
    _ ≤ max (hi - lo + 1) 0 := by
        rw [show hi + 1 - lo = hi - lo + 1 by ring]

/-- Pigeonhole along a column. -/
lemma length_le_of_const_x (pixels : List Pt) (hnd : pixels.Nodup) (c : ℤ)
    (hxc : ∀ p ∈ pixels, p.x = c) (lo hi : ℤ)
    (hy : ∀ p ∈ pixels, lo ≤ p.y ∧ p.y ≤ hi) :
    (pixels.length : ℤ) ≤ max (hi - lo + 1) 0 := by
  have hmapnd : (pixels.map Pt.y).Nodup := by
    refine List.Nodup.map_on ?_ hnd
    intro p hp q hq hxy
    have hxx : p.x = q.x := (hxc p hp).trans (hxc q hq).symm
    cases p
    cases q
    simp_all
  have hsub : (pixels.map Pt.y).toFinset ⊆ Finset.Icc lo hi := by
    intro y hym
    rw [List.mem_toFinset] at hym
    obtain ⟨p, hp, rfl⟩ := List.mem_map.mp hym
    exact Finset.mem_Icc.mpr ⟨(hy p hp).1, (hy p hp).2⟩
  have hcard := Finset.card_le_card hsub
  rw [List.toFinset_card_of_nodup hmapnd, List.length_map, Int.card_Icc] at hcard
  calc (pixels.length : ℤ) ≤ ((hi + 1 - lo).toNat : ℤ) := by exact_mod_cast hcard
    _ = max (hi + 1 - lo) 0 := Int.toNat_eq_max _
    _ ≤ max (hi - lo + 1) 0 := by
        rw [show hi + 1 - lo = hi - lo + 1 by ring]

/-- C8: a region found by the segmentation of `detectShapes` that survives
the noise-rejection gates (in particular area ≥ 300 and aspect ratio ≤ 4)
has bounding-box width and height at least 1, so the division
`bbox.width / bbox.height` in the star/rectangle branch is well defined and
the zero-denominator case is unreachable. -/
theorem claim_C8 (w h : ℕ) (bin : ℕ) (pixels : List Pt) (s : DetectedShape)
    (hr : pixels ∈ findRegions w h bin)
    (hc : classifyRegion w h bin pixels = some s) :
    1 ≤ s.boundingBox.width ∧ 1 ≤ s.boundingBox.height := by
  have hnd := findRegions_nodup w h bin pixels hr
  obtain ⟨h300, hasp, hbox, _, _⟩ := classifyRegion_gates w h bin pixels s hc
  have hne : pixels ≠ [] := by
    intro he
    rw [he] at h300
    simp at h300
  obtain ⟨p0, hp0⟩ := List.exists_mem_of_ne_nil pixels hne
  have hbw0 : 0 ≤ maxXOf pixels - minXOf pixels := by
    have h1 := minXOf_le hp0
    have h2 := le_maxXOf hp0
    omega
  have hbh0 : 0 ≤ maxYOf pixels - minYOf pixels := by
    have h1 := minYOf_le hp0
    have h2 := le_maxYOf hp0
    omega
  have hkey : 1 ≤ maxXOf pixels - minXOf pixels ∧ 1 ≤ maxYOf pixels - minYOf pixels := by
    by_contra hcon
    rw [not_and_or] at hcon
    rcases hcon with hcon | hcon
    · -- width 0: a single column, so the aspect gate would have failed
      have hbw : maxXOf pixels - minXOf pixels = 0 := by omega
      have hxc : ∀ p ∈ pixels, p.x = minXOf pixels := by
        intro p hp
        have h1 := minXOf_le hp
        have h2 := le_maxXOf hp
        omega
      have hlen := length_le_of_const_x pixels hnd (minXOf pixels) hxc
        (minYOf pixels) (maxYOf pixels)
        (fun p hp => ⟨minYOf_le hp, le_maxYOf hp⟩)
      have h300z : (300 : ℤ) ≤ (pixels.length : ℤ) := by exact_mod_cast h300
      have hbh299 : 299 ≤ maxYOf pixels - minYOf pixels := by
        rcases le_max_iff.mp (le_trans h300z hlen) with hcase | hcase
        · omega
        · omega
      refine hasp ?_
      rw [hbw]
      have e1 : intMin (0 : ℤ) (maxYOf pixels - minYOf pixels) = 0 := by
        unfold intMin
        rw [if_pos hbh0]
      have e2 : intMax (0 : ℤ) (maxYOf pixels - minYOf pixels) = maxYOf pixels - minYOf pixels := by
        unfold intMax
        rw [if_pos hbh0]
      have e3 : intMax (1 : ℤ) (0 : ℤ) = 1 := by
        unfold intMax
        rw [if_neg (by omega)]
      rw [e1, e2, e3]
      push_cast
      have : (299 : ℚ) ≤ ((maxYOf pixels : ℚ) - (minYOf pixels : ℚ)) := by exact_mod_cast hbh299
      rw [div_one]
      linarith
    · -- height 0: a single row
      have hbh : maxYOf pixels - minYOf pixels = 0 := by omega
      have hyc : ∀ p ∈ pixels, p.y = minYOf pixels := by
        intro p hp
        have h1 := minYOf_le hp
        have h2 := le_maxYOf hp
        omega
      have hlen := length_le_of_const_y pixels hnd (minYOf pixels) hyc
        (minXOf pixels) (maxXOf pixels)
        (fun p hp => ⟨minXOf_le hp, le_maxXOf hp⟩)
      have h300z : (300 : ℤ) ≤ (pixels.length : ℤ) := by exact_mod_cast h300
      have hbw299 : 299 ≤ maxXOf pixels - minXOf pixels := by
        rcases le_max_iff.mp (le_trans h300z hlen) with hcase | hcase
        · omega
        · omega
      refine hasp ?_
      rw [hbh]
      have e1 : intMin (maxXOf pixels - minXOf pixels) (0 : ℤ) = 0 := by
        unfold intMin
        rw [if_neg (by omega)]
      have e2 : intMax (maxXOf pixels - minXOf pixels) (0 : ℤ) = maxXOf pixels - minXOf pixels := by
        unfold intMax
        rw [if_neg (by omega)]
      have e3 : intMax (1 : ℤ) (0 : ℤ) = 1 := by
        unfold intMax
        rw [if_neg (by omega)]
      rw [e1, e2, e3]
      push_cast
      have : (299 : ℚ) ≤ ((maxXOf pixels : ℚ) - (minXOf pixels : ℚ)) := by exact_mod_cast hbw299
      rw [div_one]
      linarith
  rw [hbox]
  constructor
  · show (1 : ℚ) ≤ ((maxXOf pixels - minXOf pixels : ℤ) : ℚ)
    exact_mod_cast hkey.1
  · show (1 : ℚ) ≤ ((maxYOf pixels - minYOf pixels : ℤ) : ℚ)
    exact_mod_cast hkey.2

set_option maxRecDepth 1000000 in
/-- Witness for C8 on the region and shape `detectShapes` finds in
`img3020`. -/
theorem claim_C8_witness :
    ((findRegions 30 20 (maskOfBits (binList img3020))).headD [] ∈
      findRegions 30 20 (maskOfBits (binList img3020)))
    ∧ (classifyRegion 30 20 (maskOfBits (binList img3020))
        ((findRegions 30 20 (maskOfBits (binList img3020))).headD []) =
        some ((detectShapes img3020).shapes.headD default))
    ∧ (1 ≤ ((detectShapes img3020).shapes.headD default).boundingBox.width
       ∧ 1 ≤ ((detectShapes img3020).shapes.headD default).boundingBox.height) := by
  have hmem : ((findRegions 30 20 (maskOfBits (binList img3020))).headD [] ∈
      findRegions 30 20 (maskOfBits (binList img3020)))
    ∧ (classifyRegion 30 20 (maskOfBits (binList img3020))
        ((findRegions 30 20 (maskOfBits (binList img3020))).headD []) =
        some ((detectShapes img3020).shapes.headD default)) := by
    decide!
  exact ⟨hmem.1, hmem.2, claim_C8 30 20 (maskOfBits (binList img3020)) _ _ hmem.1 hmem.2⟩

set_option maxHeartbeats 1000000 in
/-- Core real-analysis fact behind `isCorner`: for `mag` the product of the
two square roots and a positive `ε`, the double inequality
`π/4 < acos (clamp (d/(mag+ε))) < 3π/4` on the clamped cosine is equivalent
to the rational test `L < 0 ∨ L² < 4ε²ab` with `L = 2d² - ab - ε²`. -/
lemma angle_test_iff (d a b ε : ℝ) (ha : 0 ≤ a) (hb : 0 ≤ b) (hε : 0 < ε) :
    (Real.pi / 4 < Real.arccos (max (-1) (min 1 (d / (Real.sqrt a * Real.sqrt b + ε)))) ∧
      Real.arccos (max (-1) (min 1 (d / (Real.sqrt a * Real.sqrt b + ε)))) < 3 * Real.pi / 4)
    ↔ (2 * d^2 - a * b - ε^2 < 0 ∨ (2 * d^2 - a * b - ε^2)^2 < 4 * ε^2 * (a * b)) := by
  have hm0 : 0 ≤ Real.sqrt a * Real.sqrt b :=
    mul_nonneg (Real.sqrt_nonneg a) (Real.sqrt_nonneg b)
  have hm2 : (Real.sqrt a * Real.sqrt b) ^ 2 = a * b := by
    rw [mul_pow, Real.sq_sqrt ha, Real.sq_sqrt hb]
  have hden : 0 < Real.sqrt a * Real.sqrt b + ε := by linarith
  have hs2 : (0 : ℝ) < Real.sqrt 2 := Real.sqrt_pos.mpr (by norm_num)
  have hs2sq : (Real.sqrt 2) ^ 2 = 2 := Real.sq_sqrt (by norm_num)
  have hr0 : (0 : ℝ) < Real.sqrt 2 / 2 := by linarith
  have hr1 : Real.sqrt 2 / 2 < 1 := by nlinarith
  have hrsq : (Real.sqrt 2 / 2) ^ 2 = 1 / 2 := by
    rw [div_pow, hs2sq]
    norm_num
  set c0 := d / (Real.sqrt a * Real.sqrt b + ε) with hc0
  set c := max (-1) (min 1 c0) with hc
  have hcm1 : -1 ≤ c := le_max_left _ _
  have hc1 : c ≤ 1 := max_le (by norm_num) (min_le_left _ _)
  have hmem : Real.arccos c ∈ Set.Icc 0 Real.pi :=
    ⟨Real.arccos_nonneg c, Real.arccos_le_pi c⟩
  have hmem4 : Real.pi / 4 ∈ Set.Icc 0 Real.pi := by
    constructor <;> nlinarith [Real.pi_pos]
  have hmem34 : 3 * Real.pi / 4 ∈ Set.Icc 0 Real.pi := by
    constructor <;> nlinarith [Real.pi_pos]
  have hcos4 : Real.cos (Real.pi / 4) = Real.sqrt 2 / 2 := Real.cos_pi_div_four
  have hcos34 : Real.cos (3 * Real.pi / 4) = -(Real.sqrt 2 / 2) := by
    rw [show 3 * Real.pi / 4 = Real.pi - Real.pi / 4 by ring, Real.cos_pi_sub, hcos4]
  have hlow : Real.pi / 4 < Real.arccos c ↔ c < Real.sqrt 2 / 2 := by
    rw [← Real.strictAntiOn_cos.lt_iff_lt hmem hmem4, Real.cos_arccos hcm1 hc1, hcos4]
  have hhigh : Real.arccos c < 3 * Real.pi / 4 ↔ -(Real.sqrt 2 / 2) < c := by
    rw [← Real.strictAntiOn_cos.lt_iff_lt hmem34 hmem, Real.cos_arccos hcm1 hc1, hcos34]
  have hclamp : (c < Real.sqrt 2 / 2 ∧ -(Real.sqrt 2 / 2) < c) ↔
      (c0 < Real.sqrt 2 / 2 ∧ -(Real.sqrt 2 / 2) < c0) := by
    rcases lt_or_le c0 (-1) with hx | hx
    · have hmax : c = -1 := by
        rw [hc, min_eq_right (by linarith : c0 ≤ (1:ℝ))]
        exact max_eq_left (by linarith)
      rw [hmax]
      constructor
      · rintro ⟨-, h1⟩
        exact absurd h1 (by linarith)
      · rintro ⟨-, h1⟩
        exact absurd h1 (by linarith)
    · rcases le_or_lt c0 1 with hx1 | hx1
      · have hmax : c = c0 := by
          rw [hc, min_eq_right hx1]
          exact max_eq_right hx
        rw [hmax]
      · have hmax : c = 1 := by
          rw [hc, min_eq_left (by linarith : (1:ℝ) ≤ c0)]
          exact max_eq_right (by norm_num)
        rw [hmax]
        constructor
        · rintro ⟨h2, -⟩
          exact absurd h2 (by linarith)
        · rintro ⟨h2, -⟩
          exact absurd h2 (by linarith)
  have hsq : (c0 < Real.sqrt 2 / 2 ∧ -(Real.sqrt 2 / 2) < c0) ↔
      2 * d^2 < (Real.sqrt a * Real.sqrt b + ε)^2 := by
    have hdpos : (0:ℝ) < (Real.sqrt a * Real.sqrt b + ε)^2 := by positivity
    constructor
    · rintro ⟨h2, h1⟩
      have hcsq : c0^2 < 1/2 := by nlinarith
      rw [hc0, div_pow] at hcsq
      have := (div_lt_iff hdpos).mp hcsq
      nlinarith
    · intro hlt
      have hcsq : c0^2 < 1/2 := by
        rw [hc0, div_pow, div_lt_iff hdpos]
        nlinarith
      constructor
      · by_contra hcon
        push_neg at hcon
        nlinarith
      · by_contra hcon
        push_neg at hcon
        nlinarith
  have hfinal : 2 * d^2 < (Real.sqrt a * Real.sqrt b + ε)^2 ↔
      (2 * d^2 - a * b - ε^2 < 0 ∨ (2 * d^2 - a * b - ε^2)^2 < 4 * ε^2 * (a * b)) := by
    have hexp : (Real.sqrt a * Real.sqrt b + ε)^2 =
        a * b + ε^2 + 2 * ε * (Real.sqrt a * Real.sqrt b) := by
      nlinarith [hm2]
    have hεm : 0 ≤ 2 * ε * (Real.sqrt a * Real.sqrt b) := by positivity
    rw [hexp]
    constructor
    · intro hlt
      rcases lt_or_le (2 * d^2 - a * b - ε^2) 0 with hL | hL
      · exact Or.inl hL
      · right
        nlinarith
    · intro hor
      rcases hor with hL | hL
      · linarith
      · by_cases hL0 : 2 * d^2 - a * b - ε^2 < 0
        · linarith
        · push_neg at hL0
          nlinarith
  rw [hlow, hhigh, hclamp, hsq, hfinal]

/-- Transfer of the rational corner test between ℚ and ℝ. -/
lemma corner_test_cast (dz az bz : ℤ) :
    (2 * ((dz : ℚ))^2 - ((az * bz : ℤ) : ℚ) - (1/1000000 : ℚ)^2 < 0 ∨
      (2 * ((dz : ℚ))^2 - ((az * bz : ℤ) : ℚ) - (1/1000000 : ℚ)^2)^2 <
        4 * (1/1000000 : ℚ)^2 * ((az * bz : ℤ) : ℚ))
    ↔ (2 * ((dz : ℝ))^2 - (az : ℝ) * (bz : ℝ) - (1/1000000 : ℝ)^2 < 0 ∨
      (2 * ((dz : ℝ))^2 - (az : ℝ) * (bz : ℝ) - (1/1000000 : ℝ)^2)^2 <
        4 * (1/1000000 : ℝ)^2 * ((az : ℝ) * (bz : ℝ))) := by
  have e1 : ((2 * ((dz : ℚ))^2 - ((az * bz : ℤ) : ℚ) - (1/1000000 : ℚ)^2 : ℚ) : ℝ) =
      2 * ((dz : ℝ))^2 - (az : ℝ) * (bz : ℝ) - (1/1000000 : ℝ)^2 := by
    push_cast
    ring
  have e2 : ((4 * (1/1000000 : ℚ)^2 * ((az * bz : ℤ) : ℚ) : ℚ) : ℝ) =
      4 * (1/1000000 : ℝ)^2 * ((az : ℝ) * (bz : ℝ)) := by
    push_cast
    ring
  constructor <;> intro h <;> rcases h with h | h
  · left
    rw [← e1]
    exact_mod_cast h
  · right
    rw [← e1, ← e2]
    exact_mod_cast h
  · left
    rw [← e1] at h
    exact_mod_cast h
  · right
    rw [← e1, ← e2] at h
    exact_mod_cast h

/-- The rational corner test `isCorner` decides exactly the source condition
`π/4 < acos(clamp(dot / (sqrt of |v1|² * sqrt of |v2|² + 1e-6))) < 3π/4`. -/
lemma isCorner_iff_angle (p1 p2 p3 : Pt) :
    isCorner p1 p2 p3 = true ↔
      (Real.pi / 4 < Real.arccos (max (-1) (min 1 ((((p2.x - p1.x) * (p3.x - p2.x) + (p2.y - p1.y) * (p3.y - p2.y) : ℤ) : ℝ) /
          (Real.sqrt (((p2.x - p1.x) ^ 2 + (p2.y - p1.y) ^ 2 : ℤ) : ℝ) *
            Real.sqrt (((p3.x - p2.x) ^ 2 + (p3.y - p2.y) ^ 2 : ℤ) : ℝ) + 1 / 1000000))))
       ∧ Real.arccos (max (-1) (min 1 ((((p2.x - p1.x) * (p3.x - p2.x) + (p2.y - p1.y) * (p3.y - p2.y) : ℤ) : ℝ) /
          (Real.sqrt (((p2.x - p1.x) ^ 2 + (p2.y - p1.y) ^ 2 : ℤ) : ℝ) *
            Real.sqrt (((p3.x - p2.x) ^ 2 + (p3.y - p2.y) ^ 2 : ℤ) : ℝ) + 1 / 1000000)))) < 3 * Real.pi / 4) := by
  have ha : (0 : ℝ) ≤ (((p2.x - p1.x) ^ 2 + (p2.y - p1.y) ^ 2 : ℤ) : ℝ) := by
    have h0 : (0 : ℤ) ≤ ((p2.x - p1.x) ^ 2 + (p2.y - p1.y) ^ 2 : ℤ) := by positivity
    exact_mod_cast h0
  have hb : (0 : ℝ) ≤ (((p3.x - p2.x) ^ 2 + (p3.y - p2.y) ^ 2 : ℤ) : ℝ) := by
    have h0 : (0 : ℤ) ≤ ((p3.x - p2.x) ^ 2 + (p3.y - p2.y) ^ 2 : ℤ) := by positivity
    exact_mod_cast h0
  have hmain := angle_test_iff (((p2.x - p1.x) * (p3.x - p2.x) + (p2.y - p1.y) * (p3.y - p2.y) : ℤ) : ℝ) (((p2.x - p1.x) ^ 2 + (p2.y - p1.y) ^ 2 : ℤ) : ℝ) (((p3.x - p2.x) ^ 2 + (p3.y - p2.y) ^ 2 : ℤ) : ℝ) (1 / 1000000) ha hb (by norm_num)
  simp only [isCorner]
  rw [decide_eq_true_iff]
  rw [corner_test_cast ((p2.x - p1.x) * (p3.x - p2.x) + (p2.y - p1.y) * (p3.y - p2.y))
    ((p2.x - p1.x) ^ 2 + (p2.y - p1.y) ^ 2) ((p3.x - p2.x) ^ 2 + (p3.y - p2.y) ^ 2)]
  exact hmain.symm

end ShapeDet
